import Mathlib

/-!
Verification of the dynamicprompts prompt parser (src/src/dynamicprompts/parser/parse.py)
against its specification.

The parser in the source is built from pyparsing combinators over the default
parser configuration (variant_start = "{", variant_end = "}", variable_start = "${",
variable_end = "}", wrap_start = "%{", wrap_end = "}", wildcard_wrap = "__").
Every element of the grammar is built with leave_whitespace(), which in pyparsing
recursively disables implicit whitespace skipping, so the grammar is an exact
character-level recursive-descent parser: alternations (`|`) try alternatives in
order and commit to the first success, Word/Regex/CharsNotIn elements are greedy
maximal-munch with no backtracking, Opt either matches or contributes its default,
and repetition stops at the first failing iteration.  A parse action that raises
pyparsing.ParseException makes its alternative fail softly (the enclosing
alternation moves on); any other Python exception (TypeError, AttributeError)
propagates and aborts the whole parse.  This file embeds that grammar and its
parse actions directly, production by production.

Not modelled: the three comment ignore-expressions installed on the prompt
element (`prompt.ignore("#" + restOfLine)`, `prompt.ignore("//" + restOfLine)`,
`prompt.ignore(c_style_comment)`), which propagate recursively into every
grammar element.  Their firing discipline, established against pyparsing:
an ignorable is tried at every element boundary (pyparsing preParse runs
before each match attempt), and the ignorable itself first skips a run of
pyparsing default whitespace (" \n\t\r", the same set as `isWsChar` below)
before trying its marker; a Combine(adjacent = True) scanner (the condition
pattern) is guarded at its start position but an ignorable never fires inside
the combined scan; ignorable consumption inside a failed alternative is
rolled back with the alternative.  The element-boundary positions of an
input are its start, the start of a condition pattern (right after the
opening brace), the start of each nested prompt value, and the position
after each completed chunk; a marker strictly inside a greedy literal or
pattern run is consumed as ordinary text and never fires.  Every theorem
below about the parse entry point restricts its inputs so that no marker
(`#`, `//`, `/*`) can sit at such a boundary position, after the whitespace
skip — either by excluding `#` and `/` from the input outright, or by
excluding markers at the specific boundary positions the input form has —
so the omission is invisible on every input a theorem speaks about.
-/

namespace DynamicPrompts

/-! ## The command data model

`SamplingMethod` and the command classes of the dynamicprompts.commands package.
`Command` is the closed tagged union of AST nodes.  Node payloads follow the
dataclass fields of the source where the class files are available
(`condition_command.py`); classes whose files are not in the extract
(literal, sequence, variant, wildcard, wrap, probability, comment, variable
commands) are modelled from the spec's data-model table (spec section 3), which
lists their attributes.  Python float payloads (variant weights, probability
chance) are kept as their source token text, since only their parse-time
acceptance — never float arithmetic — matters to the grammar. -/

inductive SamplingMethod where
  | random
  | combinatorial
  | cyclical
deriving Repr, DecidableEq

inductive Command where
  /-- LiteralCommand: verbatim output text. -/
  | literal (literal : String)
  /-- SequenceCommand: concatenation of children. -/
  | sequence (tokens : List Command)
  /-- VariantCommand: options are (value, weight-token) pairs. -/
  | variant (variants : List (Command × String)) (min_bound max_bound : Nat)
      (separator : String) (sampling_method : Option SamplingMethod)
  /-- WildcardCommand: a plain-string path or a nested command producing it. -/
  | wildcard (wildcard : String ⊕ Command) (sampling_method : Option SamplingMethod)
      («variables» : List (String × Command))
  /-- WrapCommand. -/
  | wrap (wrapper inner : Command)
  /-- ProbabilityCommand: chance kept as its numeric source token. -/
  | probability (value : Command) (chance : String)
  /-- ConditionCommand, fields as in condition_command.py: a conditions list of
  (context_key, regex_expression, if_value) plus else_value and sampling_method. -/
  | condition (conditions_list : List (Option String × String × Command))
      (else_value : Command) (sampling_method : SamplingMethod)
  /-- CommentCommand: produces no output. -/
  | comment (literal : String)
  /-- VariableAccessCommand. -/
  | variableAccess (name : String) (default : Option Command)
  /-- VariableAssignmentCommand. -/
  | variableAssignment (name : String) (value : Command) (overwrite immediate : Bool)
deriving Repr

/-- Python-level exceptions that a parse action can raise (other than
pyparsing.ParseException, which is a soft parse failure). -/
inductive PyErr where
  | typeError (msg : String)
  | attributeError (msg : String)
  | valueError (msg : String)
  /-- Modelled from the spec: InvalidBoundError, "a Variant's declared bound is
  internally inconsistent (lower bound greater than declared upper bound before
  clamping to option count); surfaced at parse time" (spec section 7). -/
  | invalidBound (msg : String)
deriving Repr, DecidableEq

/-! ## Character classes (pyparsing character sets used by the grammar) -/

/-- Whitespace matched by pyparsing's White() element (used via OPT_WS). -/
def isWsChar (c : Char) : Bool :=
  c = ' ' || c = '\t' || c = '\x0d' || c = '\n'

/-- pyparsing `printables`: every printable ASCII character that is not whitespace. -/
def isPrintableChar (c : Char) : Bool :=
  33 ≤ c.toNat && c.toNat ≤ 126

/-- First character of pyparsing `var_name = Word(alphas + "_-", alphanums + "_-")`. -/
def isVarNameFirst (c : Char) : Bool :=
  c.isAlpha || c = '_' || c = '-'

/-- Body character of `var_name`. -/
def isVarNameRest (c : Char) : Bool :=
  c.isAlphanum || c = '_' || c = '-'

/-- Characters of the probability chance token, `Word(nums + ".")`. -/
def isChanceChar (c : Char) : Bool :=
  c.isDigit || c = '.'

/-- Characters allowed in a variant separator,
`Word(printables + " ", exclude_chars = "$\x7b\x7d")`. -/
def isSeparatorChar (c : Char) : Bool :=
  (isPrintableChar c || c = ' ') && !(c = '$' || c = '{' || c = '}')

/-! ## Python string helpers -/

/-- Whitespace stripped by Python str.strip(). -/
def isPySpace (c : Char) : Bool :=
  c = ' ' || c = '\t' || c = '\n' || c = '\x0d' || c = '\x0b' || c = '\x0c'

/-- Python str.strip() on a character list. -/
def pyStripL (l : List Char) : List Char :=
  ((l.dropWhile isPySpace).reverse.dropWhile isPySpace).reverse

/-- Python str.strip(). -/
def pyStrip (s : String) : String :=
  String.mk (pyStripL s.data)

/-- Python str.isalnum() (ASCII fragment): nonempty and every character alphanumeric. -/
def pyIsAlnumL (l : List Char) : Bool :=
  !l.isEmpty && l.all Char.isAlphanum

/-! ## Python float() acceptance

`reject_if_real_number` and `accept_if_real_number` in parse.py decide between
the condition and probability productions by whether Python float() accepts the
stripped text.  We model float()'s acceptance grammar:
sign? (inf | infinity | nan | number), case-insensitively, where
number = (digitpart ("." digitpart?)? | "." digitpart) exponent?,
exponent = (e | E) sign? digitpart, and digitpart is digits with single
underscores strictly between digits. -/

/-- Consume the tail of a digitpart: (digit | "_" digit)*. -/
def digitPartTail : List Char → List Char
  | [] => []
  | c :: r =>
    if c.isDigit then digitPartTail r
    else if c = '_' then
      match r with
      | d :: r2 => if d.isDigit then digitPartTail r2 else c :: r
      | [] => c :: r
    else c :: r

/-- Consume a digitpart (at least one leading digit); none if absent. -/
def digitPartRest : List Char → Option (List Char)
  | [] => none
  | c :: r => if c.isDigit then some (digitPartTail r) else none

/-- Consume an optional exponent; a malformed exponent is left unconsumed
(the caller then rejects because input remains). -/
def expRest (l : List Char) : List Char :=
  match l with
  | [] => []
  | c :: r =>
    if c = 'e' || c = 'E' then
      let r2 := match r with
        | s :: r3 => if s = '+' || s = '-' then r3 else r
        | [] => r
      match digitPartRest r2 with
      | some r4 => r4
      | none => l
    else l

/-- Consume a float number body; none if it does not start with one. -/
def floatNumberRest (l : List Char) : Option (List Char) :=
  match digitPartRest l with
  | some r =>
    match r with
    | '.' :: r2 =>
      match digitPartRest r2 with
      | some r3 => some (expRest r3)
      | none => some (expRest r2)
    | _ => some (expRest r)
  | none =>
    match l with
    | '.' :: r2 =>
      match digitPartRest r2 with
      | some r3 => some (expRest r3)
      | none => none
    | _ => none

/-- Does Python float() accept this string?  float() itself strips surrounding
whitespace, so stripping is included here. -/
def isPyFloat (s : String) : Bool :=
  let l := pyStripL s.data
  let l2 := match l with
    | c :: r => if c = '+' || c = '-' then r else l
    | [] => l
  let low := l2.map Char.toLower
  if low = "inf".data || low = "infinity".data || low = "nan".data then true
  else
    match floatNumberRest l2 with
    | some [] => true
    | _ => false

/-! ## Scanners (greedy pyparsing leaf elements) -/

/-- Does the list start with this character? -/
def headIs (x : Char) (l : List Char) : Bool :=
  match l with
  | c :: _ => c == x
  | [] => false

/-- Greedy maximal run: the longest head satisfying p, and the rest
(pyparsing Word / Regex character-class repetition). -/
def runSplit (p : Char → Bool) : List Char → List Char × List Char
  | [] => ([], [])
  | c :: r =>
    if p c then
      let s := runSplit p r
      (c :: s.1, s.2)
    else ([], c :: r)

/-- Match an exact string (pyparsing Literal / Suppress), returning the rest. -/
def eatStr : List Char → List Char → Option (List Char)
  | [], l => some l
  | p :: ps, c :: cs => if c = p then eatStr ps cs else none
  | _ :: _, [] => none

/-- OPT_WS = pp.Opt(pp.White()): drop an optional whitespace run. -/
def dropWs (l : List Char) : List Char :=
  (runSplit isWsChar l).2

/-- Literal-run context: which extra exclusions of
_configure_literal_sequence are active. -/
structure LitCtx where
  isVariantLiteral : Bool
  isWildcardLiteral : Bool
deriving Repr

/-- Characters excluded from a literal run (default configuration):
the base exclusions are "#" and the starts of variant / variable / wrap
blocks, i.e. "#", "\x7b", "$", "%"; a variant literal further excludes
"|", "$", "\x7d"; a wildcard literal further excludes ")", "(". -/
def litExcluded (ctx : LitCtx) (c : Char) : Bool :=
  c = '#' || c = '{' || c = '$' || c = '%' ||
  (ctx.isVariantLiteral && (c = '|' || c = '}')) ||
  (ctx.isWildcardLiteral && (c = ')' || c = '('))

/-- The greedy literal run of _configure_literal_sequence: stops at an excluded
character, at a position starting the wildcard wrap "__", and (for variant
literals) at a position starting "::". -/
def litRun (ctx : LitCtx) : List Char → List Char × List Char
  | [] => ([], [])
  | c :: r =>
    if litExcluded ctx c then ([], c :: r)
    else if c = '_' && headIs '_' r then ([], c :: r)
    else if ctx.isVariantLiteral && c = ':' && headIs ':' r then ([], c :: r)
    else
      let s := litRun ctx r
      (c :: s.1, s.2)

/-! The condition-pattern scanner of _configure_condition_parser:
Combine(ZeroOrMore(~"::" + ~variant_end + ~variant_start + Char(printables) + OPT_WS)).
Each iteration refuses a position starting "::", "\x7d" or "\x7b", then takes one
printable character followed by an optional whitespace run, all collected into
the pattern text.  `condContent` is a position at an iteration start with no
pending whitespace; `condContentWs` is the state inside the trailing OPT_WS of
an iteration, which absorbs whitespace and then begins the next iteration. -/
mutual

/-- An iteration start of the condition-pattern scanner. -/
def condContent : List Char → List Char × List Char
  | [] => ([], [])
  | c :: r =>
    if c = ':' && headIs ':' r then ([], c :: r)
    else if c = '}' || c = '{' then ([], c :: r)
    else if isPrintableChar c then
      let s := condContentWs r
      (c :: s.1, s.2)
    else ([], c :: r)

/-- The trailing OPT_WS state of the condition-pattern scanner. -/
def condContentWs : List Char → List Char × List Char
  | [] => ([], [])
  | c :: r =>
    if isWsChar c then
      let s := condContentWs r
      (c :: s.1, s.2)
    else if c = ':' && headIs ':' r then ([], c :: r)
    else if c = '}' || c = '{' then ([], c :: r)
    else if isPrintableChar c then
      let s := condContentWs r
      (c :: s.1, s.2)
    else ([], c :: r)

end

/-! ## Parse outcomes

pyparsing alternations treat a ParseException (from a failed match or from a
parse action raising one) as a soft failure and move to the next alternative;
any other Python exception aborts the entire parse.  `POut.fail` is the former,
`POut.err` the latter. -/

inductive POut (α : Type) where
  | ok (val : α) (rest : List Char)
  | fail
  | err (e : PyErr)
deriving Repr

/-- MatchFirst: keep a success or a hard error, try the next alternative on a
soft failure. -/
def pOrElse {α : Type} (a : POut α) (b : Unit → POut α) : POut α :=
  match a with
  | .fail => b ()
  | x => x

/-! ## Small tokens -/

/-- Numeric value of a digit run. -/
def digitsToNat (l : List Char) : Nat :=
  l.foldl (fun a c => a * 10 + (c.toNat - 48)) 0

/-- pp.common.integer = Word(nums), converted to int. -/
def intTok (l : List Char) : Option (Nat × List Char) :=
  let s := runSplit Char.isDigit l
  if s.1.isEmpty then none else some (digitsToNat s.1, s.2)

/-- pp.common.real, a Regex for an optionally signed decimal with a mandatory
dot: digits "." digits-or-nothing, or "." digits.  Returns the matched token. -/
def realTok (l : List Char) : Option (List Char × List Char) :=
  let sgn : List Char × List Char := match l with
    | c :: r => if c = '+' || c = '-' then ([c], r) else ([], l)
    | [] => ([], l)
  let s := runSplit Char.isDigit sgn.2
  if s.1.isEmpty then
    match s.2 with
    | '.' :: r2 =>
      let s2 := runSplit Char.isDigit r2
      if s2.1.isEmpty then none else some (sgn.1 ++ '.' :: s2.1, s2.2)
    | _ => none
  else
    match s.2 with
    | '.' :: r2 =>
      let s2 := runSplit Char.isDigit r2
      some (sgn.1 ++ s.1 ++ '.' :: s2.1, s2.2)
    | _ => none

/-- The variant-option weight of _create_weight_parser:
(pp.common.real | pp.common.integer) + Suppress("::").  The alternation commits
to `real` when it matches, even if "::" then fails. -/
def weightTok (l : List Char) : Option (String × List Char) :=
  match realTok l with
  | some (tok, rest) =>
    match eatStr [':', ':'] rest with
    | some r2 => some (String.mk tok, r2)
    | none => none
  | none =>
    let s := runSplit Char.isDigit l
    if s.1.isEmpty then none
    else
      match eatStr [':', ':'] s.2 with
      | some r2 => some (String.mk s.1, r2)
      | none => none

/-- Opt(sampler_symbol): one of "~", "!", "@", or nothing. -/
def samplerOpt (l : List Char) : Option Char × List Char :=
  match l with
  | c :: r => if c = '~' || c = '!' || c = '@' then (some c, r) else (none, l)
  | [] => (none, l)

/-- _parse_sampling_method: map a sampler symbol to a SamplingMethod. -/
def parseSamplingMethodSym : Option Char → Except PyErr (Option SamplingMethod)
  | none => .ok none
  | some c =>
    if c = '~' then .ok (some .random)
    else if c = '!' then .ok (some .combinatorial)
    else if c = '@' then .ok (some .cyclical)
    else .error (.valueError "Unexpected sampling method")

/-! ## The variant bound expression (_configure_range and _parse_bound_expr) -/

/-- The captured shape of a bound range: the four alternatives of
_configure_range, tried in the order both / upper-only / lower-only / exact. -/
inductive BoundRange where
  | exact (n : Nat)
  | lower (n : Nat)
  | upper (n : Nat)
  | both (low high : Nat)
deriving Repr, DecidableEq

/-- bound_range = Group(bound_range4 | bound_range3 | bound_range2 | bound_range1):
lower "-" upper, then "-" upper, then lower "-", then exact. -/
def boundRangeP (l : List Char) : Option (BoundRange × List Char) :=
  let r4 : Option (BoundRange × List Char) :=
    match intTok l with
    | some (n, r1) =>
      match eatStr ['-'] r1 with
      | some r2 =>
        match intTok r2 with
        | some (m, r3) => some (.both n m, r3)
        | none => none
      | none => none
    | none => none
  match r4 with
  | some res => some res
  | none =>
    let r3 : Option (BoundRange × List Char) :=
      match eatStr ['-'] l with
      | some r1 =>
        match intTok r1 with
        | some (m, r2) => some (.upper m, r2)
        | none => none
      | none => none
    match r3 with
    | some res => some res
    | none =>
      let r2 : Option (BoundRange × List Char) :=
        match intTok l with
        | some (n, r1) =>
          match eatStr ['-'] r1 with
          | some rr => some (.lower n, rr)
          | none => none
        | none => none
      match r2 with
      | some res => some res
      | none =>
        match intTok l with
        | some (n, r1) => some (.exact n, r1)
        | none => none

/-- bound_expr = Group(bound_range + "$$" + Opt(separator + "$$", default ",")).
The separator Word is greedy; if the following "$$" fails the Opt falls back to
the default comma without consuming anything. -/
def boundExprP (l : List Char) : Option ((BoundRange × String) × List Char) :=
  match boundRangeP l with
  | none => none
  | some (rng, r1) =>
    match eatStr ['$', '$'] r1 with
    | none => none
    | some r2 =>
      let s := runSplit isSeparatorChar r2
      if s.1.isEmpty then some ((rng, ","), r2)
      else
        match eatStr ['$', '$'] s.2 with
        | some r3 => some ((rng, String.mk s.1), r3)
        | none => some ((rng, ","), r2)

/-- _parse_bound_expr: lbound defaults to 1 and ubound to max_options; an exact
bound sets both, otherwise a present lower or upper end overrides its default.
The separator was already defaulted to "," by the capture. -/
def parse_bound_expr (rng : BoundRange) (sep : String) (max_options : Nat) :
    Nat × Nat × String :=
  match rng with
  | .exact n => (n, n, sep)
  | .lower n => (n, max_options, sep)
  | .upper m => (1, m, sep)
  | .both n m => (n, m, sep)

/-! ## Parse actions -/

/-- _parse_sequence_or_single_command: one child is returned directly, any
other number of children (including zero) becomes a SequenceCommand. -/
def seqOrSingle : List Command → Command
  | [c] => c
  | cs => .sequence cs

/-- The field names of the ConditionCommand dataclass
(condition_command.py): conditions_list, else_value, sampling_method. -/
def conditionCommandFields : List String :=
  ["conditions_list", "else_value", "sampling_method"]

/-- The keyword arguments _parse_condition_command passes to ConditionCommand. -/
def conditionCallKwargs : List String :=
  ["if_value", "else_value", "regex_expression"]

/-- _parse_condition_command: calls
ConditionCommand(if_value=..., else_value=..., regex_expression=...).
A Python dataclass __init__ raises TypeError on a keyword argument that is not
a field, which is the case here (if_value and regex_expression are not fields
of ConditionCommand), so the action aborts the parse.  The fall-through branch
constructs the command the field list would demand; it is unreachable because
the keyword check fails (see conditionCallKwargs_mismatch). -/
def parseConditionAction (condition : String) (if_value else_value : Command) :
    Except PyErr Command :=
  match conditionCallKwargs.find? (fun k => !(conditionCommandFields.contains k)) with
  | some k => .error (.typeError ("ConditionCommand.__init__() got an unexpected keyword argument " ++ k))
  | none => .ok (.condition [(none, condition, if_value)] else_value .random)

/-- Modelled from the spec: VariantCommand construction (variant_command.py is
not part of the extract).  Spec section 3: "a Variant's min_bound/max_bound are
clamped into [1, option count] at construction"; spec section 7: InvalidBoundError
when the declared lower bound exceeds the declared upper bound, surfaced at
parse time. -/
def mkVariantCommand (options : List (Command × String)) (min_bound max_bound : Nat)
    (separator : String) (sampling_method : Option SamplingMethod) :
    Except PyErr Command :=
  if max_bound < min_bound then
    .error (.invalidBound "lower bound greater than upper bound")
  else
    let n := options.length
    .ok (.variant options (min (max min_bound 1) n) (min (max max_bound 1) n)
      separator sampling_method)

/-- _parse_variant_command: resolve the sampling method, derive the bounds and
separator from the bound expression (defaults 1, 1, ",") and construct the
VariantCommand. -/
def parseVariantAction (samp : Option Char) (bound : Option (BoundRange × String))
    (options : List (Command × String)) : Except PyErr Command :=
  match parseSamplingMethodSym samp with
  | .error e => .error e
  | .ok sm =>
    match bound with
    | some (rng, s) =>
      let b := parse_bound_expr rng s options.length
      mkVariantCommand options b.1 b.2.1 b.2.2 sm
    | none => mkVariantCommand options 1 1 "," sm

/-- _parse_wildcard_variable_access_command: when the default clause is absent
(or its capture is falsy, i.e. an empty sequence — SequenceCommand defines
list-like length), the variable's own name is used; the default is then
flattened through its .literal attribute, stripped.  A non-literal default has
no .literal attribute and raises AttributeError. -/
def parseWildcardVariableAccessAction (name : String) (defaultOpt : Option Command) :
    Except PyErr Command :=
  let d := match defaultOpt with
    | none => Command.literal name
    | some (Command.sequence []) => Command.literal name
    | some d => d
  match d with
  | .literal s => .ok (.variableAccess name (some (.literal (pyStrip s))))
  | _ => .error (.attributeError "object has no attribute literal")

/-! ## Python string helpers used by _parse_variable_spec -/

/-- Python str.split(","). -/
def splitOnComma (l : List Char) : List (List Char) :=
  match l with
  | [] => [[]]
  | c :: r =>
    if c = ',' then [] :: splitOnComma r
    else
      match splitOnComma r with
      | h :: t => (c :: h) :: t
      | [] => [[c]]

/-- Python str.partition("="): text before the first "=", and text after it
(everything, when there is no "="). -/
def partitionEq (l : List Char) : List Char × List Char :=
  match l with
  | [] => ([], [])
  | c :: r =>
    if c = '=' then ([], r)
    else
      let s := partitionEq r
      (c :: s.1, s.2)

/-- Python dict() over key/value pairs: first-insertion order, later values
override earlier keys in place. -/
def dictOfPairs (ps : List (String × Command)) : List (String × Command) :=
  ps.foldl
    (fun m kv =>
      if m.any (fun e => e.1 == kv.1) then
        m.map (fun e => if e.1 == kv.1 then kv else e)
      else m ++ [kv])
    []

/-! ## Non-recursive productions -/

/-- _configure_inline_comment_parser: variant_start, OPT_WS, "*", one or more
characters outside variant_start / variant_end / "*", "*", OPT_WS, variant_end;
the action builds a CommentCommand from the text. -/
def commentP (l : List Char) : POut Command :=
  match eatStr ['{'] l with
  | none => .fail
  | some l1 =>
    let l2 := dropWs l1
    match eatStr ['*'] l2 with
    | none => .fail
    | some l3 =>
      let s := runSplit (fun c => !(c = '{' || c = '}' || c = '*')) l3
      if s.1.isEmpty then .fail
      else
        match eatStr ['*'] s.2 with
        | none => .fail
        | some l4 =>
          match eatStr ['}'] (dropWs l4) with
          | none => .fail
          | some l5 => .ok (.comment (String.mk s.1)) l5

/-- A literal sequence with its action _parse_literal_command.  Without the
comment ignore-expressions a OneOrMore of the greedy literal Regex always
produces exactly one maximal token, so the action's " ".join is that token. -/
def literalSequenceP (ctx : LitCtx) (l : List Char) : POut Command :=
  let s := litRun ctx l
  if s.1.isEmpty then .fail else .ok (.literal (String.mk s.1)) s.2

/-- var_name = Word(alphas + "_-", alphanums + "_-"). -/
def varNameTok (l : List Char) : Option (List Char × List Char) :=
  match l with
  | [] => none
  | c :: r =>
    if isVarNameFirst c then
      let s := runSplit isVarNameRest r
      some (c :: s.1, s.2)
    else none

/-! ## The mutually recursive grammar

create_parser, specialised to the default parser configuration.  The first
argument is recursion fuel: every nested production consumes at least one
character before recursing, so any fuel of at least 8 * length + 16 is ample;
the top entry point supplies exactly that.

The comment ignore-expressions that create_parser installs on the prompt are
not modelled here (see the header): in particular the repetition loops do not
try an ignorable between chunk attempts, and the condition production does
not try one at its pattern scanner's start position.  Theorems stated over
these productions restrict their inputs so that no `#`, `//` or `/*` marker
(after a " \n\t\r" whitespace skip) sits at any such boundary, where the real
parser would strip a comment that this model would treat as input. -/

mutual

/-- prompt <<= ZeroOrMore(chunk), with _parse_sequence_or_single_command. -/
def promptP : Nat → List Char → POut Command
  | 0, _ => .fail
  | fuel + 1, l =>
    match promptLoopP fuel l with
    | .ok cs rest => .ok (seqOrSingle cs) rest
    | .fail => .fail
    | .err e => .err e

/-- The repetition inside the top-level prompt. -/
def promptLoopP : Nat → List Char → POut (List Command)
  | 0, _ => .fail
  | fuel + 1, l =>
    match chunkP fuel l with
    | .fail => .ok [] l
    | .err e => .err e
    | .ok c rest =>
      match promptLoopP fuel rest with
      | .ok cs r2 => .ok (c :: cs) r2
      | .fail => .fail
      | .err e => .err e

/-- chunk: the top-level alternation, in the priority order of create_parser:
inline_comments, probabilities, condition, variable_assignment,
variable_access, wrap_command, variants, wildcard, literal_sequence. -/
def chunkP : Nat → List Char → POut Command
  | 0, _ => .fail
  | fuel + 1, l =>
    pOrElse (commentP l) fun _ =>
    pOrElse (probabilityP fuel l) fun _ =>
    pOrElse (conditionP fuel l) fun _ =>
    pOrElse (varAssignP fuel l) fun _ =>
    pOrElse (varAccessP fuel l) fun _ =>
    pOrElse (wrapP fuel l) fun _ =>
    pOrElse (variantsP fuel l) fun _ =>
    pOrElse (wildcardP fuel l) fun _ =>
    literalSequenceP ⟨false, false⟩ l

/-- variant_prompt <<= ZeroOrMore(variant_chunk). -/
def variantPromptP : Nat → List Char → POut Command
  | 0, _ => .fail
  | fuel + 1, l =>
    match variantLoopP fuel l with
    | .ok cs rest => .ok (seqOrSingle cs) rest
    | .fail => .fail
    | .err e => .err e

/-- The repetition inside variant_prompt. -/
def variantLoopP : Nat → List Char → POut (List Command)
  | 0, _ => .fail
  | fuel + 1, l =>
    match variantChunkP fuel l with
    | .fail => .ok [] l
    | .err e => .err e
    | .ok c rest =>
      match variantLoopP fuel rest with
      | .ok cs r2 => .ok (c :: cs) r2
      | .fail => .fail
      | .err e => .err e

/-- variant_chunk, in the priority order of create_parser: inline_comments,
variable_access, wrap_command, probabilities, condition, variants, wildcard,
variant_literal_sequence. -/
def variantChunkP : Nat → List Char → POut Command
  | 0, _ => .fail
  | fuel + 1, l =>
    pOrElse (commentP l) fun _ =>
    pOrElse (varAccessP fuel l) fun _ =>
    pOrElse (wrapP fuel l) fun _ =>
    pOrElse (probabilityP fuel l) fun _ =>
    pOrElse (conditionP fuel l) fun _ =>
    pOrElse (variantsP fuel l) fun _ =>
    pOrElse (wildcardP fuel l) fun _ =>
    literalSequenceP ⟨true, false⟩ l

/-- wildcard_prompt <<= OneOrMore(wildcard_chunk, stop_on = "("). -/
def wildcardPromptP : Nat → List Char → POut Command
  | 0, _ => .fail
  | fuel + 1, l =>
    match wildcardLoopP fuel l with
    | .ok cs rest => if cs.isEmpty then .fail else .ok (seqOrSingle cs) rest
    | .fail => .fail
    | .err e => .err e

/-- The repetition inside wildcard_prompt; each iteration first checks the
stop_on element "(". -/
def wildcardLoopP : Nat → List Char → POut (List Command)
  | 0, _ => .fail
  | fuel + 1, l =>
    if headIs '(' l then .ok [] l
    else
      match wildcardChunkP fuel l with
      | .fail => .ok [] l
      | .err e => .err e
      | .ok c rest =>
        match wildcardLoopP fuel rest with
        | .ok cs r2 => .ok (c :: cs) r2
        | .fail => .fail
        | .err e => .err e

/-- wildcard_chunk, in the priority order of create_parser: inline_comments,
wildcard_variable_access, condition, probabilities, variants,
wildcard_literal_sequence, variant_literal_sequence. -/
def wildcardChunkP : Nat → List Char → POut Command
  | 0, _ => .fail
  | fuel + 1, l =>
    pOrElse (commentP l) fun _ =>
    pOrElse (wildcardVarAccessP fuel l) fun _ =>
    pOrElse (conditionP fuel l) fun _ =>
    pOrElse (probabilityP fuel l) fun _ =>
    pOrElse (variantsP fuel l) fun _ =>
    pOrElse (literalSequenceP ⟨false, true⟩ l) fun _ =>
    literalSequenceP ⟨true, false⟩ l

/-- _configure_probabilities: variant_start, OPT_WS, a Word(nums + ".") token
accepted only when Python float() accepts it (accept_if_real_number), "::",
an optional variant_prompt value, OPT_WS, variant_end; the action builds a
ProbabilityCommand. -/
def probabilityP : Nat → List Char → POut Command
  | 0, _ => .fail
  | fuel + 1, l =>
    match eatStr ['{'] l with
    | none => .fail
    | some l1 =>
      let l2 := dropWs l1
      let s := runSplit isChanceChar l2
      if s.1.isEmpty then .fail
      else if !isPyFloat (String.mk s.1) then .fail
      else
        match eatStr [':', ':'] s.2 with
        | none => .fail
        | some l3 =>
          match variantPromptP fuel l3 with
          | .ok v l4 =>
            match eatStr ['}'] (dropWs l4) with
            | none => .fail
            | some l5 => .ok (.probability v (String.mk s.1)) l5
          | .fail => .fail
          | .err e => .err e

/-- _configure_condition_parser: variant_start, the condition-pattern scanner
(rejected when Python float() accepts the stripped pattern,
reject_if_real_number), OPT_WS, "::", OPT_WS, a variant_prompt if-value, an
optional "|" and variant_prompt else-value, OPT_WS, variant_end; then
_parse_condition_command (which raises TypeError, see parseConditionAction).
The ignorable that the real parser tries at the Combine scanner's start
position (a pattern opening with "#", "//" or "/*" is consumed as a comment
there, so the production fails instead of reaching the action) is not
modelled; theorems about this production exclude such patterns. -/
def conditionP : Nat → List Char → POut Command
  | 0, _ => .fail
  | fuel + 1, l =>
    match eatStr ['{'] l with
    | none => .fail
    | some l1 =>
      let s := condContent l1
      if isPyFloat (String.mk s.1) then .fail
      else
        match eatStr [':', ':'] (dropWs s.2) with
        | none => .fail
        | some l2 =>
          match variantPromptP fuel (dropWs l2) with
          | .ok ifv l3 =>
            let elseRes : POut (Option Command) :=
              match eatStr ['|'] l3 with
              | some l4 =>
                match variantPromptP fuel l4 with
                | .ok ev l5 => .ok (some ev) l5
                | .fail => .ok none l3
                | .err e => .err e
              | none => .ok none l3
            match elseRes with
            | .ok elseOpt l6 =>
              match eatStr ['}'] (dropWs l6) with
              | none => .fail
              | some l7 =>
                match parseConditionAction (String.mk s.1) ifv
                    (elseOpt.getD (.literal "")) with
                | .ok c => .ok c l7
                | .error e => .err e
            | .fail => .fail
            | .err e => .err e
          | .fail => .fail
          | .err e => .err e

/-- _configure_variable_assignment: variable_start, OPT_WS, var_name, OPT_WS,
Opt("?"), "=", Opt("!"), OPT_WS, a variant_prompt value, OPT_WS, variable_end;
then _parse_variable_assignment_command: overwrite is the absence of "?",
immediate is the presence of "!". -/
def varAssignP : Nat → List Char → POut Command
  | 0, _ => .fail
  | fuel + 1, l =>
    match eatStr ['$', '{'] l with
    | none => .fail
    | some l1 =>
      match varNameTok (dropWs l1) with
      | none => .fail
      | some (name, l2) =>
        let l3 := dropWs l2
        let pres : Bool × List Char := match eatStr ['?'] l3 with
          | some r => (true, r)
          | none => (false, l3)
        match eatStr ['='] pres.2 with
        | none => .fail
        | some l4 =>
          let imm : Bool × List Char := match eatStr ['!'] l4 with
            | some r => (true, r)
            | none => (false, l4)
          match variantPromptP fuel (dropWs imm.2) with
          | .ok v l5 =>
            match eatStr ['}'] (dropWs l5) with
            | none => .fail
            | some l6 =>
              .ok (.variableAssignment (String.mk name) v (!pres.1) imm.1) l6
          | .fail => .fail
          | .err e => .err e

/-- The shared grammar of _configure_variable_access: variable_start, OPT_WS,
var_name, OPT_WS, Optional(":" + OPT_WS + variant_prompt default), OPT_WS,
variable_end.  Returns the captured name and optional default. -/
def varAccessCoreP : Nat → List Char → POut (String × Option Command)
  | 0, _ => .fail
  | fuel + 1, l =>
    match eatStr ['$', '{'] l with
    | none => .fail
    | some l1 =>
      match varNameTok (dropWs l1) with
      | none => .fail
      | some (name, l2) =>
        let l3 := dropWs l2
        let defRes : POut (Option Command) :=
          match eatStr [':'] l3 with
          | some l4 =>
            match variantPromptP fuel (dropWs l4) with
            | .ok d l5 => .ok (some d) l5
            | .fail => .ok none l3
            | .err e => .err e
          | none => .ok none l3
        match defRes with
        | .ok defOpt l6 =>
          match eatStr ['}'] (dropWs l6) with
          | none => .fail
          | some l7 => .ok (String.mk name, defOpt) l7
        | .fail => .fail
        | .err e => .err e

/-- variable_access with _parse_variable_access_command. -/
def varAccessP : Nat → List Char → POut Command
  | 0, _ => .fail
  | fuel + 1, l =>
    match varAccessCoreP fuel l with
    | .ok nd rest => .ok (.variableAccess nd.1 nd.2) rest
    | .fail => .fail
    | .err e => .err e

/-- wildcard_variable_access: the same grammar with
_parse_wildcard_variable_access_command as its action. -/
def wildcardVarAccessP : Nat → List Char → POut Command
  | 0, _ => .fail
  | fuel + 1, l =>
    match varAccessCoreP fuel l with
    | .ok nd rest =>
      match parseWildcardVariableAccessAction nd.1 nd.2 with
      | .ok c => .ok c rest
      | .error e => .err e
    | .fail => .fail
    | .err e => .err e

/-- _configure_wrap_command: wrap_start, OPT_WS, a variant_prompt wrapper,
OPT_WS, "$$", OPT_WS, a variant_prompt inner, wrap_end. -/
def wrapP : Nat → List Char → POut Command
  | 0, _ => .fail
  | fuel + 1, l =>
    match eatStr ['%', '{'] l with
    | none => .fail
    | some l1 =>
      match variantPromptP fuel (dropWs l1) with
      | .ok wrapper l2 =>
        match eatStr ['$', '$'] (dropWs l2) with
        | none => .fail
        | some l3 =>
          match variantPromptP fuel (dropWs l3) with
          | .ok inner l4 =>
            match eatStr ['}'] l4 with
            | none => .fail
            | some l5 => .ok (.wrap wrapper inner) l5
          | .fail => .fail
          | .err e => .err e
      | .fail => .fail
      | .err e => .err e

/-- _configure_variants: variant_start, OPT_WS, Opt(sampler_symbol),
Opt(bound_expr), OPT_WS, variants_list, OPT_WS, variant_end; then
_parse_variant_command (parseVariantAction). -/
def variantsP : Nat → List Char → POut Command
  | 0, _ => .fail
  | fuel + 1, l =>
    match eatStr ['{'] l with
    | none => .fail
    | some l1 =>
      let sp := samplerOpt (dropWs l1)
      let bd : Option (BoundRange × String) × List Char :=
        match boundExprP sp.2 with
        | some (b, r) => (some b, r)
        | none => (none, sp.2)
      match variantsListP fuel (dropWs bd.2) with
      | .ok opts l2 =>
        match eatStr ['}'] (dropWs l2) with
        | none => .fail
        | some l3 =>
          match parseVariantAction sp.1 bd.1 opts with
          | .ok c => .ok c l3
          | .error e => .err e
      | .fail => .fail
      | .err e => .err e

/-- variants_list = delimited_list(variant, delim = "|"): one option, then
zero or more "|"-prefixed options. -/
def variantsListP : Nat → List Char → POut (List (Command × String))
  | 0, _ => .fail
  | fuel + 1, l =>
    match variantOptionP fuel l with
    | .ok o l1 =>
      match variantsListTailP fuel l1 with
      | .ok os l2 => .ok (o :: os) l2
      | .fail => .fail
      | .err e => .err e
    | .fail => .fail
    | .err e => .err e

/-- The tail of a delimited list; a "|" whose following option fails is
backtracked (the repetition ends before the "|"). -/
def variantsListTailP : Nat → List Char → POut (List (Command × String))
  | 0, _ => .fail
  | fuel + 1, l =>
    match eatStr ['|'] l with
    | none => .ok [] l
    | some l1 =>
      match variantOptionP fuel l1 with
      | .ok o l2 =>
        match variantsListTailP fuel l2 with
        | .ok os l3 => .ok (o :: os) l3
        | .fail => .fail
        | .err e => .err e
      | .fail => .ok [] l
      | .err e => .err e

/-- variant = Group(OPT_WS + Opt(weight, default 1) + variant_prompt + OPT_WS):
an option value paired with its weight token. -/
def variantOptionP : Nat → List Char → POut (Command × String)
  | 0, _ => .fail
  | fuel + 1, l =>
    let l1 := dropWs l
    let w : String × List Char := match weightTok l1 with
      | some (tok, r) => (tok, r)
      | none => ("1", l1)
    match variantPromptP fuel w.2 with
    | .ok v l2 => .ok (v, w.1) (dropWs l2)
    | .fail => .fail
    | .err e => .err e

/-- _configure_wildcard: wildcard_wrap, Opt(sampler_symbol), wildcard_prompt
path, Opt(OPT_WS + "(" + a nonempty run without ")" + ")"), wildcard_wrap;
then _parse_wildcard_command: resolve the sampling method, parse the variable
spec (each value through a nested parse), and simplify a Literal path to its
plain string. -/
def wildcardP : Nat → List Char → POut Command
  | 0, _ => .fail
  | fuel + 1, l =>
    match eatStr ['_', '_'] l with
    | none => .fail
    | some l1 =>
      let sp := samplerOpt l1
      match wildcardPromptP fuel sp.2 with
      | .ok path l2 =>
        let spec : Option String × List Char :=
          match eatStr ['('] (dropWs l2) with
          | some r =>
            let s := runSplit (fun c => !(c = ')')) r
            if s.1.isEmpty then (none, l2)
            else
              match eatStr [')'] s.2 with
              | some r2 => (some (String.mk s.1), r2)
              | none => (none, l2)
          | none => (none, l2)
        match eatStr ['_', '_'] spec.2 with
        | none => .fail
        | some l3 =>
          match parseSamplingMethodSym sp.1 with
          | .error e => .err e
          | .ok sm =>
            match (match spec.1 with
                   | some spn => specPairsP fuel (splitOnComma spn.data)
                   | none => .ok [] []) with
            | .ok vars _ =>
              let w : String ⊕ Command := match path with
                | .literal s => .inl s
                | c => .inr c
              .ok (.wildcard w sm (dictOfPairs vars)) l3
            | .fail => .fail
            | .err e => .err e
      | .fail => .fail
      | .err e => .err e

/-- _parse_variable_spec: each comma-separated pair is split on its first "=";
an alphanumeric value becomes a LiteralCommand, any other value is parsed by a
nested parse() call (a nested syntax error raises ParseException, which fails
the enclosing wildcard softly). -/
def specPairsP : Nat → List (List Char) → POut (List (String × Command))
  | 0, _ => .fail
  | _ + 1, [] => .ok [] []
  | fuel + 1, part :: rest =>
    let kv := partitionEq part
    let value := pyStripL kv.2
    let cmdRes : POut Command :=
      if pyIsAlnumL value then .ok (.literal (String.mk value)) []
      else
        match promptP fuel value with
        | .ok c r => if r.isEmpty then .ok c [] else .fail
        | .fail => .fail
        | .err e => .err e
    match cmdRes with
    | .ok cmd _ =>
      match specPairsP fuel rest with
      | .ok ps _ => .ok ((String.mk (pyStripL kv.1), cmd) :: ps) []
      | .fail => .fail
      | .err e => .err e
    | .fail => .fail
    | .err e => .err e

end

/-! ## The parse entry point -/

/-- A failed parse: a pyparsing ParseException carrying the offending position
(the number of characters consumed before the failure), or a propagated Python
exception. -/
inductive ParseErr where
  | syntaxError (loc : Nat)
  | pyError (e : PyErr)
deriving Repr, DecidableEq

/-- parse() on a character list: the isalnum() fast path returns a bare
LiteralCommand; otherwise the prompt grammar must consume the entire input
(parse_all = True), and leftover input is a syntax error positioned at the end
of what was consumed.  The comment ignore-expressions are not modelled (see
the header); theorems about parseL therefore keep comment markers away from
every element boundary of their inputs. -/
def parseL (l : List Char) : Except ParseErr Command :=
  if pyIsAlnumL l then .ok (.literal (String.mk l))
  else
    match promptP (8 * l.length + 16) l with
    | .ok c rest =>
      if rest.isEmpty then .ok c
      else .error (.syntaxError (l.length - rest.length))
    | .fail => .error (.syntaxError 0)
    | .err e => .error (.pyError e)

/-- parse(prompt): the entry point of parse.py. -/
def parse (s : String) : Except ParseErr Command :=
  parseL s.data

/-! ## The compiled-parser cache

get_cached_parser keeps one compiled parser per parser configuration in a
dictionary keyed by the (immutable, equality-comparable) configuration:
a lookup hit returns the stored parser, a miss builds one with create_parser
and stores it.  We model parser objects by identity (an allocation number) and
log every create_parser call, so that "the same parser object is returned" and
"at most one parser is built per configuration" are expressible.  The source
uses a WeakKeyDictionary so that an entry may additionally disappear once its
configuration is garbage collected; garbage collection is outside this model. -/

/-- Modelled from the spec: ParserConfig (parser/config.py is not part of the
extract).  Spec section 6: an immutable value object holding the delimiter
strings variant_start/variant_end, variable_start/variable_end,
wrap_start/wrap_end and wildcard_wrap. -/
structure ParserConfig where
  variant_start : String := "\x7b"
  variant_end : String := "\x7d"
  variable_start : String := "$\x7b"
  variable_end : String := "\x7d"
  wrap_start : String := "%\x7b"
  wrap_end : String := "\x7d"
  wildcard_wrap : String := "__"
deriving Repr, DecidableEq

/-- The cache state: the dictionary, the next parser identity to allocate, and
the log of configurations for which create_parser has run. -/
structure CacheState where
  cache : List (ParserConfig × Nat)
  nextId : Nat
  built : List ParserConfig
deriving Repr

/-- The empty module-level _parser_cache. -/
def initialCacheState : CacheState := ⟨[], 0, []⟩

/-- get_cached_parser: return the cached parser for the configuration, or
create one and store it. -/
def getCachedParser (st : CacheState) (cfg : ParserConfig) : Nat × CacheState :=
  match st.cache.find? (fun e => e.1 == cfg) with
  | some e => (e.2, st)
  | none => (st.nextId, ⟨(cfg, st.nextId) :: st.cache, st.nextId + 1, st.built ++ [cfg]⟩)

/-- A sequence of get_cached_parser calls against one cache. -/
def runGets (trace : List ParserConfig) : CacheState :=
  trace.foldl (fun st cfg => (getCachedParser st cfg).2) initialCacheState

/-- Does the list start with these two characters? (used to state that an input
does not open with a "//" or a block comment marker). -/
def startsWith2 (x y : Char) (l : List Char) : Bool :=
  match l with
  | a :: b :: _ => a == x && b == y
  | _ => false

/-- Is there an adjacent occurrence of the two characters anywhere in the list? -/
def hasPair (x y : Char) : List Char → Bool
  | a :: r =>
    (a == x && headIs y r) || hasPair x y r
  | [] => false

end DynamicPrompts

namespace DynamicPrompts

/-! # Theorems

Everything from here on is proof: general lemmas about the scanners and the
grammar first, then one theorem (with witness or counterexample) per claim. -/

theorem runSplit_snd_length (p : Char → Bool) :
    ∀ l : List Char, ((runSplit p l).2).length ≤ l.length := by
  intro l
  induction l with
  | nil => simp [runSplit]
  | cons c r ih =>
    simp only [runSplit]
    by_cases h : p c
    · simp [h]; omega
    · simp [h]

/-! ### Scanner lemmas -/

theorem headIs_nil (x : Char) : headIs x [] = false := rfl

theorem headIs_cons (x c : Char) (r : List Char) : headIs x (c :: r) = (c == x) := rfl

/-- The head of an append is unchanged by truncating the second part to its
first element. -/
theorem headIs_append_take (y : Char) (a b : List Char) :
    headIs y (a ++ b.take 1) = headIs y (a ++ b) := by
  cases a with
  | cons c r => rfl
  | nil => cases b with
    | nil => rfl
    | cons c r => rfl

theorem eatStr_self_append (p l : List Char) : eatStr p (p ++ l) = some l := by
  induction p with
  | nil => rfl
  | cons c r ih => simp [eatStr, ih]

theorem eatStr_none_head {x : Char} {p l : List Char} (h : headIs x l = false) :
    eatStr (x :: p) l = none := by
  cases l with
  | nil => rfl
  | cons c r =>
    simp only [headIs_cons, beq_eq_false_iff_ne, ne_eq] at h
    simp [eatStr, h]

/-- eatStr for a two-character marker fails unless the input starts with it. -/
theorem eatStr_two_none {x y : Char} {l : List Char}
    (h : ¬(headIs x l = true ∧ headIs y l.tail = true)) :
    eatStr [x, y] l = none := by
  cases l with
  | nil => rfl
  | cons c r =>
    cases r with
    | nil =>
      simp only [headIs_cons, List.tail_cons, headIs_nil] at h
      by_cases hc : c = x
      · simp [eatStr, hc]
      · simp [eatStr, hc]
    | cons d r2 =>
      simp only [headIs_cons, List.tail_cons, beq_iff_eq] at h
      by_cases hc : c = x
      · have hd : ¬(d = y) := fun hdy => h ⟨hc, hdy⟩
        simp [eatStr, hc, hd]
      · simp [eatStr, hc]

theorem runSplit_stop {p : Char → Bool} {l : List Char}
    (h : ∀ c r, l = c :: r → p c = false) : runSplit p l = ([], l) := by
  cases l with
  | nil => rfl
  | cons c r => simp [runSplit, h c r rfl]

theorem runSplit_append {p : Char → Bool} {a : List Char} (b : List Char)
    (ha : ∀ c ∈ a, p c = true) (hb : ∀ c r, b = c :: r → p c = false) :
    runSplit p (a ++ b) = (a, b) := by
  induction a with
  | nil => simpa using runSplit_stop hb
  | cons c a2 ih =>
    have hc : p c = true := ha c (List.mem_cons_self c a2)
    have ih2 := ih (fun d hd => ha d (List.mem_cons_of_mem c hd))
    simp [runSplit, hc, ih2]

theorem dropWs_eq_self {l : List Char}
    (h : ∀ c r, l = c :: r → isWsChar c = false) : dropWs l = l := by
  simp [dropWs, runSplit_stop h]

theorem dropWhile_eq_self_of_all {p : Char → Bool} {l : List Char}
    (h : ∀ c ∈ l, p c = false) : l.dropWhile p = l := by
  cases l with
  | nil => rfl
  | cons c r => simp [List.dropWhile_cons, h c (List.mem_cons_self c r)]

theorem pyStripL_eq_self {l : List Char} (h : ∀ c ∈ l, isPySpace c = false) :
    pyStripL l = l := by
  unfold pyStripL
  rw [dropWhile_eq_self_of_all h]
  rw [dropWhile_eq_self_of_all (fun c hc => h c (List.mem_reverse.mp hc))]
  simp

/-! ### Literal-run lemmas -/

theorem litRun_nil (ctx : LitCtx) : litRun ctx [] = ([], []) := rfl

theorem litRun_stop_of_excluded {ctx : LitCtx} {c : Char} {r : List Char}
    (h : litExcluded ctx c = true) : litRun ctx (c :: r) = ([], c :: r) := by
  simp [litRun, h]

theorem ws_not_printable {c : Char} (h : isWsChar c = true) :
    isPrintableChar c = false := by
  simp only [isWsChar, Bool.or_eq_true, decide_eq_true_eq] at h
  rcases h with ((h | h) | h) | h <;> subst h <;> decide

/-- The greedy literal run consumes exactly `a` when every character of `a` is
allowed, no lookahead pair ("__" always, "::" for a variant literal) occurs
inside `a` or across the boundary into `b`, and the run stops at `b`. -/
theorem litRun_append {ctx : LitCtx} {a : List Char} (b : List Char)
    (ha : ∀ c ∈ a, litExcluded ctx c = false)
    (hu : hasPair '_' '_' (a ++ b.take 1) = false)
    (hc : ctx.isVariantLiteral = true → hasPair ':' ':' (a ++ b.take 1) = false)
    (hb : litRun ctx b = ([], b)) :
    litRun ctx (a ++ b) = (a, b) := by
  induction a with
  | nil => simpa using hb
  | cons c a2 ih =>
    have hex : litExcluded ctx c = false := ha c (List.mem_cons_self _ _)
    simp only [List.cons_append, hasPair, Bool.or_eq_false_iff] at hu
    have e2i : c = '_' → headIs '_' (a2 ++ b) = false := by
      intro h1
      have h3 := hu.1
      simp only [List.append_eq] at h3
      rw [headIs_append_take] at h3
      simpa [h1] using h3
    have ih2 := ih (fun d hd => ha d (List.mem_cons_of_mem c hd)) hu.2
      (fun hv => by
        have h3 := hc hv
        simp only [List.cons_append, hasPair, Bool.or_eq_false_iff] at h3
        exact h3.2)
    simp only [List.cons_append, litRun, List.append_eq, hex, Bool.false_eq_true,
      if_false, Bool.and_eq_true, decide_eq_true_eq]
    have n1 : ¬(c = '_' ∧ headIs '_' (a2 ++ b) = true) := by
      rintro ⟨h1, h2⟩
      rw [e2i h1] at h2
      exact absurd h2 (by simp)
    have n2 : ¬((ctx.isVariantLiteral = true ∧ c = ':') ∧ headIs ':' (a2 ++ b) = true) := by
      rintro ⟨⟨hv, h1⟩, h2⟩
      have hcc := hc hv
      simp only [List.cons_append, hasPair, Bool.or_eq_false_iff] at hcc
      have h3 := hcc.1
      simp only [List.append_eq] at h3
      rw [headIs_append_take] at h3
      simp only [h1, beq_self_eq_true, Bool.true_and] at h3
      rw [h3] at h2
      exact absurd h2 (by simp)
    rw [if_neg n1, if_neg n2, ih2]

/-! ### Condition-pattern scanner lemmas -/

theorem condContentWs_append {a : List Char} (b : List Char)
    (ha : ∀ c ∈ a, isPrintableChar c = true ∧ c ≠ ':' ∧ c ≠ '{' ∧ c ≠ '}')
    (hb : condContentWs b = ([], b)) :
    condContentWs (a ++ b) = (a, b) := by
  induction a with
  | nil => simpa using hb
  | cons c a2 ih =>
    obtain ⟨hp, hcol, hbr1, hbr2⟩ := ha c (List.mem_cons_self _ _)
    have hws : isWsChar c = false := by
      cases hw : isWsChar c
      · rfl
      · rw [ws_not_printable hw] at hp; exact absurd hp (by simp)
    have ih2 := ih (fun d hd => ha d (List.mem_cons_of_mem c hd))
    simp [condContentWs, hws, hcol, hbr1, hbr2, hp, ih2]

theorem condContent_append {a : List Char} (b : List Char) (hne : a ≠ [])
    (ha : ∀ c ∈ a, isPrintableChar c = true ∧ c ≠ ':' ∧ c ≠ '{' ∧ c ≠ '}')
    (hb : condContentWs b = ([], b)) :
    condContent (a ++ b) = (a, b) := by
  cases a with
  | nil => exact absurd rfl hne
  | cons c a2 =>
    obtain ⟨hp, hcol, hbr1, hbr2⟩ := ha c (List.mem_cons_self _ _)
    have h2 := condContentWs_append b (fun d hd => ha d (List.mem_cons_of_mem c hd)) hb
    simp [condContent, hcol, hbr1, hbr2, hp, h2]

/-! ### Production failure lemmas

Each grammar production fails softly when the input does not open with its
marker; these hold at every f. -/

theorem commentP_fail_head {l : List Char} (h : headIs '{' l = false) :
    commentP l = .fail := by
  simp [commentP, eatStr_none_head h]

theorem commentP_fail_star {l1 : List Char}
    (hws : ∀ c r, l1 = c :: r → isWsChar c = false)
    (h : headIs '*' l1 = false) : commentP ('{' :: l1) = .fail := by
  have he : eatStr ['{'] ('{' :: l1) = some l1 := eatStr_self_append ['{'] l1
  simp [commentP, he, dropWs_eq_self hws, eatStr_none_head h]

theorem probabilityP_fail_head {f : Nat} {l : List Char}
    (h : headIs '{' l = false) : probabilityP f l = .fail := by
  cases f with
  | zero => rfl
  | succ n => simp [probabilityP, eatStr_none_head h]

theorem conditionP_fail_head {f : Nat} {l : List Char}
    (h : headIs '{' l = false) : conditionP f l = .fail := by
  cases f with
  | zero => rfl
  | succ n => simp [conditionP, eatStr_none_head h]

theorem variantsP_fail_head {f : Nat} {l : List Char}
    (h : headIs '{' l = false) : variantsP f l = .fail := by
  cases f with
  | zero => rfl
  | succ n => simp [variantsP, eatStr_none_head h]

theorem varAssignP_fail_head {f : Nat} {l : List Char}
    (h : headIs '$' l = false) : varAssignP f l = .fail := by
  cases f with
  | zero => rfl
  | succ n => simp [varAssignP, eatStr_none_head h]

theorem varAccessCoreP_fail_head {f : Nat} {l : List Char}
    (h : headIs '$' l = false) : varAccessCoreP f l = .fail := by
  cases f with
  | zero => rfl
  | succ n => simp [varAccessCoreP, eatStr_none_head h]

theorem varAccessP_fail_head {f : Nat} {l : List Char}
    (h : headIs '$' l = false) : varAccessP f l = .fail := by
  cases f with
  | zero => rfl
  | succ n => simp [varAccessP, varAccessCoreP_fail_head h]

theorem wildcardVarAccessP_fail_head {f : Nat} {l : List Char}
    (h : headIs '$' l = false) : wildcardVarAccessP f l = .fail := by
  cases f with
  | zero => rfl
  | succ n => simp [wildcardVarAccessP, varAccessCoreP_fail_head h]

theorem wrapP_fail_head {f : Nat} {l : List Char}
    (h : headIs '%' l = false) : wrapP f l = .fail := by
  cases f with
  | zero => rfl
  | succ n => simp [wrapP, eatStr_none_head h]

theorem wildcardP_fail_start {f : Nat} {l : List Char}
    (h : ¬(headIs '_' l = true ∧ headIs '_' l.tail = true)) :
    wildcardP f l = .fail := by
  cases f with
  | zero => rfl
  | succ n => simp [wildcardP, eatStr_two_none h]

theorem literalSequenceP_fail {ctx : LitCtx} {l : List Char}
    (h : litRun ctx l = ([], l)) : literalSequenceP ctx l = .fail := by
  simp [literalSequenceP, h]

/-! ### Chunk-level stop lemmas -/

theorem chunkP_nil {f : Nat} : chunkP f [] = .fail := by
  cases f with
  | zero => rfl
  | succ n =>
    simp [chunkP, pOrElse,
      commentP_fail_head (l := []) rfl,
      probabilityP_fail_head (l := []) rfl,
      conditionP_fail_head (l := []) rfl,
      varAssignP_fail_head (l := []) rfl,
      varAccessP_fail_head (l := []) rfl,
      wrapP_fail_head (l := []) rfl,
      variantsP_fail_head (l := []) rfl,
      wildcardP_fail_start (l := []) (by simp [headIs_nil]),
      literalSequenceP_fail (litRun_nil _)]

theorem variantChunkP_nil {f : Nat} : variantChunkP f [] = .fail := by
  cases f with
  | zero => rfl
  | succ n =>
    simp [variantChunkP, pOrElse,
      commentP_fail_head (l := []) rfl,
      probabilityP_fail_head (l := []) rfl,
      conditionP_fail_head (l := []) rfl,
      varAccessP_fail_head (l := []) rfl,
      wrapP_fail_head (l := []) rfl,
      variantsP_fail_head (l := []) rfl,
      wildcardP_fail_start (l := []) (by simp [headIs_nil]),
      literalSequenceP_fail (litRun_nil _)]

/-- Inside a variant, a chunk cannot start at a "}" or a "|": every
production's opening marker mismatches and both are excluded from variant
literals. -/
theorem variantChunkP_fail_cons {f : Nat} {c : Char} {r : List Char}
    (hc : c = '}' ∨ c = '|') : variantChunkP f (c :: r) = .fail := by
  have hex : litExcluded ⟨true, false⟩ c = true := by
    rcases hc with h | h <;> subst h <;> rfl
  have h1 : headIs '{' (c :: r) = false := by
    rcases hc with h | h <;> subst h <;> rfl
  have h2 : headIs '$' (c :: r) = false := by
    rcases hc with h | h <;> subst h <;> rfl
  have h3 : headIs '%' (c :: r) = false := by
    rcases hc with h | h <;> subst h <;> rfl
  have h4 : headIs '_' (c :: r) = false := by
    rcases hc with h | h <;> subst h <;> rfl
  cases f with
  | zero => rfl
  | succ n =>
    simp [variantChunkP, pOrElse,
      commentP_fail_head h1, probabilityP_fail_head h1, conditionP_fail_head h1,
      varAccessP_fail_head h2, wrapP_fail_head h3, variantsP_fail_head h1,
      wildcardP_fail_start (l := c :: r) (fun hh => by rw [h4] at hh; exact absurd hh.1 (by simp)),
      literalSequenceP_fail (litRun_stop_of_excluded hex)]

/-! ### Literal chunk success, and prompt-level literal lemmas -/

/-- Unpack a "not excluded from a variant literal" fact into per-character
disequalities. -/
theorem litExcluded_variant_elim {c : Char}
    (h : litExcluded ⟨true, false⟩ c = false) :
    c ≠ '#' ∧ c ≠ '{' ∧ c ≠ '$' ∧ c ≠ '%' ∧ c ≠ '|' ∧ c ≠ '}' := by
  simp only [litExcluded, Bool.or_eq_false_iff, Bool.and_eq_false_iff,
    decide_eq_false_iff_not] at h
  tauto

/-- Unpack a "not excluded from a top-level literal" fact. -/
theorem litExcluded_top_elim {c : Char}
    (h : litExcluded ⟨false, false⟩ c = false) :
    c ≠ '#' ∧ c ≠ '{' ∧ c ≠ '$' ∧ c ≠ '%' := by
  simp only [litExcluded, Bool.or_eq_false_iff, Bool.and_eq_false_iff,
    decide_eq_false_iff_not] at h
  tauto

theorem headIs_false_of_ne {x c : Char} {r : List Char} (h : c ≠ x) :
    headIs x (c :: r) = false := by
  simp [headIs_cons, h]

/-- A variant chunk whose input opens with a nonempty allowed literal run
parses as that literal. -/
theorem variantChunkP_literal {f : Nat} {w : List Char} (b : List Char)
    (hw : w ≠ [])
    (ha : ∀ c ∈ w, litExcluded ⟨true, false⟩ c = false)
    (hu : hasPair '_' '_' (w ++ b.take 1) = false)
    (hcp : hasPair ':' ':' (w ++ b.take 1) = false)
    (hbstop : litRun ⟨true, false⟩ b = ([], b)) :
    variantChunkP (f + 1) (w ++ b) = .ok (.literal (String.mk w)) b := by
  cases w with
  | nil => exact absurd rfl hw
  | cons c w2 =>
    obtain ⟨hn1, hn2, hn3, hn4, hn5, hn6⟩ :=
      litExcluded_variant_elim (ha c (List.mem_cons_self _ _))
    have hlit : litRun ⟨true, false⟩ ((c :: w2) ++ b) = (c :: w2, b) :=
      litRun_append b ha hu (fun _ => hcp) hbstop
    simp only [List.cons_append] at hlit
    have hlits : literalSequenceP ⟨true, false⟩ ((c :: w2) ++ b) =
        .ok (.literal (String.mk (c :: w2))) b := by
      simp [literalSequenceP, hlit]
    have hwild : wildcardP f ((c :: w2) ++ b) = .fail := by
      apply wildcardP_fail_start
      rintro ⟨hh1, hh2⟩
      simp only [List.cons_append, hasPair, Bool.or_eq_false_iff] at hu
      have h3 := hu.1
      simp only [List.append_eq] at h3
      rw [headIs_append_take] at h3
      simp only [List.cons_append, headIs_cons, List.tail_cons] at hh1 hh2
      rw [beq_iff_eq] at hh1
      simp [hh1, hh2] at h3
    simp only [List.cons_append] at hlit hlits hwild ⊢
    simp [variantChunkP, pOrElse, literalSequenceP, hlit,
      commentP_fail_head (headIs_false_of_ne hn2),
      varAccessP_fail_head (headIs_false_of_ne hn3),
      wrapP_fail_head (headIs_false_of_ne hn4),
      probabilityP_fail_head (headIs_false_of_ne hn2),
      conditionP_fail_head (headIs_false_of_ne hn2),
      variantsP_fail_head (headIs_false_of_ne hn2),
      hwild, hlits]

/-- A variant prompt that is one literal run followed by a stopping suffix
parses as that single literal, leaving the suffix. -/
theorem variantPromptP_literal {f : Nat} {w : List Char} (b : List Char)
    (hw : w ≠ [])
    (ha : ∀ c ∈ w, litExcluded ⟨true, false⟩ c = false)
    (hu : hasPair '_' '_' (w ++ b.take 1) = false)
    (hcp : hasPair ':' ':' (w ++ b.take 1) = false)
    (hbstop : litRun ⟨true, false⟩ b = ([], b))
    (hbchunk : ∀ f, variantChunkP f b = .fail) :
    variantPromptP (f + 3) (w ++ b) = .ok (.literal (String.mk w)) b := by
  have hchunk := variantChunkP_literal (f := f) b hw ha hu hcp hbstop
  have hloop : variantLoopP (f + 2) (w ++ b) =
      .ok [Command.literal (String.mk w)] b := by
    simp [variantLoopP, hchunk, hbchunk]
  simp [variantPromptP, hloop, seqOrSingle]

/-- A top-level chunk on a pure literal input consumes all of it. -/
theorem chunkP_literal_all {f : Nat} {w : List Char}
    (hw : w ≠ [])
    (ha : ∀ c ∈ w, litExcluded ⟨false, false⟩ c = false)
    (hu : hasPair '_' '_' w = false) :
    chunkP (f + 1) w = .ok (.literal (String.mk w)) [] := by
  cases w with
  | nil => exact absurd rfl hw
  | cons c w2 =>
    obtain ⟨hn1, hn2, hn3, hn4⟩ := litExcluded_top_elim (ha c (List.mem_cons_self _ _))
    have hu0 : hasPair '_' '_' ((c :: w2) ++ ([] : List Char).take 1) = false := by
      simpa using hu
    have hlit : litRun ⟨false, false⟩ ((c :: w2) ++ []) = (c :: w2, []) :=
      litRun_append [] ha hu0 (fun hv => by exact absurd hv (by simp)) (litRun_nil _)
    simp only [List.append_nil] at hlit
    have hwild : wildcardP f (c :: w2) = .fail := by
      apply wildcardP_fail_start
      rintro ⟨hh1, hh2⟩
      simp only [hasPair, Bool.or_eq_false_iff] at hu
      have h3 := hu.1
      simp only [headIs_cons, List.tail_cons] at hh1 hh2
      rw [beq_iff_eq] at hh1
      simp [hh1, hh2] at h3
    simp [chunkP, pOrElse, literalSequenceP, hlit,
      commentP_fail_head (headIs_false_of_ne hn2),
      probabilityP_fail_head (headIs_false_of_ne hn2),
      conditionP_fail_head (headIs_false_of_ne hn2),
      varAssignP_fail_head (headIs_false_of_ne hn3),
      varAccessP_fail_head (headIs_false_of_ne hn3),
      wrapP_fail_head (headIs_false_of_ne hn4),
      variantsP_fail_head (headIs_false_of_ne hn2),
      hwild]

/-- The top-level prompt on a pure literal input returns a single
LiteralCommand holding the input verbatim. -/
theorem promptP_literal_all {f : Nat} {w : List Char}
    (hw : w ≠ [])
    (ha : ∀ c ∈ w, litExcluded ⟨false, false⟩ c = false)
    (hu : hasPair '_' '_' w = false) :
    promptP (f + 3) w = .ok (.literal (String.mk w)) [] := by
  have hchunk := chunkP_literal_all (f := f) hw ha hu
  have hloop : promptLoopP (f + 2) w = .ok [Command.literal (String.mk w)] [] := by
    simp [promptLoopP, hchunk, chunkP_nil]
  simp [promptP, hloop, seqOrSingle]

/-! ## Claim C3 -/

set_option maxRecDepth 2000 in
/-- C3 counterexample: the claim says a capture with zero child commands yields
an empty Literal command; in fact parsing the empty prompt (a zero-chunk
capture) yields an empty SequenceCommand, which is not the empty Literal. -/
theorem c3_counterexample :
    parse "" = .ok (.sequence []) ∧ Command.sequence [] ≠ Command.literal "" :=
  ⟨rfl, by simp⟩

/-- C3 (amended): in _parse_sequence_or_single_command, a capture with zero
child commands yields an empty SequenceCommand (not an error and not a
Literal), and a capture with exactly one child command yields that child
itself with no Sequence wrapper. -/
theorem c3_sequence_construction :
    seqOrSingle [] = Command.sequence [] ∧ ∀ c : Command, seqOrSingle [c] = c :=
  ⟨rfl, fun _ => rfl⟩

/-! ## Claim C4 -/

set_option maxRecDepth 8000 in
/-- C4 (code bug): parsing a condition block "{cat::meow|woof}" does not
return a ConditionCommand carrying the pattern and branches; instead the parse
action _parse_condition_command passes the keyword arguments if_value and
regex_expression, which are not fields of the ConditionCommand dataclass
(whose fields are conditions_list, else_value, sampling_method), so parsing
raises TypeError. -/
theorem c4_condition_construction_raises :
    parse "\x7bcat::meow|woof\x7d" =
      .error (.pyError (.typeError
        "ConditionCommand.__init__() got an unexpected keyword argument if_value")) ∧
    conditionCallKwargs.filter (fun k => !(conditionCommandFields.contains k)) =
      ["if_value", "regex_expression"] :=
  ⟨rfl, rfl⟩

/-! ## Claim C2 -/

/-- C2: every Variant command produced by parsing satisfies
1 ≤ min_bound ≤ max_bound ≤ (number of options) at construction.  The
variants_list production always captures at least one option, and the
(spec-modelled) VariantCommand constructor clamps both bounds into
[1, option count]; in particular a written upper bound exceeding the option
count is clamped down to the option count. -/
theorem c2_variant_bound_invariant :
    (∀ (f : Nat) (l rest : List Char) (opts : List (Command × String)),
        variantsListP f l = .ok opts rest → opts ≠ []) ∧
    (∀ (opts : List (Command × String)) (mn mx : Nat) (sep : String)
        (sm : Option SamplingMethod) (cmd : Command),
        opts ≠ [] → mkVariantCommand opts mn mx sep sm = .ok cmd →
        ∃ mn2 mx2, cmd = .variant opts mn2 mx2 sep sm ∧
          1 ≤ mn2 ∧ mn2 ≤ mx2 ∧ mx2 ≤ opts.length ∧
          (opts.length < mx → mx2 = opts.length)) := by
  constructor
  · intro f l rest opts h
    cases f with
    | zero => simp [variantsListP] at h
    | succ n =>
      simp only [variantsListP] at h
      split at h
      · split at h
        · cases h
          simp
        · cases h
        · cases h
      · cases h
      · cases h
  · intro opts mn mx sep sm cmd hne h
    have hlen : 1 ≤ opts.length := List.length_pos.mpr hne
    unfold mkVariantCommand at h
    split at h
    · cases h
    · rename_i hmm2
      cases h
      refine ⟨_, _, rfl, ?_, ?_, ?_, ?_⟩
      · omega
      · omega
      · omega
      · omega

/-- C2 witness: a concrete option list parsed by variants_list is nonempty, and
a concrete construction with a written upper bound of 5 over two options is
clamped to the invariant. -/
theorem c2_variant_bound_invariant_witness :
    ([(Command.literal "a", "1"), (Command.literal "b", "1")] :
        List (Command × String)) ≠ [] ∧
    (∃ mn2 mx2,
      (Command.variant [(Command.literal "a", "1"), (Command.literal "b", "1")]
          1 2 "," none) =
        .variant [(Command.literal "a", "1"), (Command.literal "b", "1")]
          mn2 mx2 "," none ∧
      1 ≤ mn2 ∧ mn2 ≤ mx2 ∧ mx2 ≤
        ([(Command.literal "a", "1"), (Command.literal "b", "1")] :
          List (Command × String)).length ∧
      (([(Command.literal "a", "1"), (Command.literal "b", "1")] :
          List (Command × String)).length < 5 → mx2 =
        ([(Command.literal "a", "1"), (Command.literal "b", "1")] :
          List (Command × String)).length)) :=
  ⟨c2_variant_bound_invariant.1 10 ('a' :: '|' :: 'b' :: '}' :: []) ['}']
      [(Command.literal "a", "1"), (Command.literal "b", "1")] rfl,
   c2_variant_bound_invariant.2
      [(Command.literal "a", "1"), (Command.literal "b", "1")] 1 5 "," none
      (Command.variant [(Command.literal "a", "1"), (Command.literal "b", "1")]
        1 2 "," none)
      (by simp) rfl⟩

/-! ## Claim C9 -/

theorem runSplit_concat (p : Char → Bool) (l : List Char) :
    (runSplit p l).1 ++ (runSplit p l).2 = l := by
  induction l with
  | nil => rfl
  | cons c r ih =>
    simp only [runSplit]
    by_cases h : p c
    · simp [h, ih]
    · simp [h]

theorem intTok_append {ds : List Char} (b : List Char) (hne : ds ≠ [])
    (hd : ∀ c ∈ ds, c.isDigit = true)
    (hb : ∀ c r, b = c :: r → c.isDigit = false) :
    intTok (ds ++ b) = some (digitsToNat ds, b) := by
  simp [intTok, runSplit_append b hd hb, hne]

theorem intTok_fail_head {l : List Char}
    (h : ∀ c r, l = c :: r → c.isDigit = false) : intTok l = none := by
  simp [intTok, runSplit_stop h]

/-- The Opt(separator + "$$") clause can never find its closing "$$" when the
text after the bound delimiter contains no "$", so it falls back to the
default comma. -/
theorem boundSepNoDollar {rest : List Char} (h : ∀ c ∈ rest, c ≠ '$') :
    eatStr ['$', '$'] (runSplit isSeparatorChar rest).2 = none := by
  have hcat := runSplit_concat isSeparatorChar rest
  cases hs : (runSplit isSeparatorChar rest).2 with
  | nil => rfl
  | cons c r =>
    have hc : c ∈ rest := by
      rw [← hcat, hs]
      exact List.mem_append_right _ (List.mem_cons_self _ _)
    exact eatStr_none_head (headIs_false_of_ne (h c hc))

/-- C9: in a variant bound clause over m options, a half-open range fills in
the missing end from the option list: "n-$$" captures a lower bound only and
_parse_bound_expr completes it to (n, m); "-n$$" captures an upper bound only,
completed to (1, n); a single "n$$" is exact, giving (n, n); in all three the
separator defaults to a comma when the separator clause is omitted. -/
theorem c9_bound_ranges (ds rest : List Char) (m : Nat)
    (hne : ds ≠ []) (hd : ∀ c ∈ ds, c.isDigit = true)
    (hr : ∀ c ∈ rest, c ≠ '$') :
    (boundExprP (ds ++ '-' :: '$' :: '$' :: rest) =
        some ((.lower (digitsToNat ds), ","), rest) ∧
      parse_bound_expr (.lower (digitsToNat ds)) "," m = (digitsToNat ds, m, ",")) ∧
    (boundExprP ('-' :: (ds ++ '$' :: '$' :: rest)) =
        some ((.upper (digitsToNat ds), ","), rest) ∧
      parse_bound_expr (.upper (digitsToNat ds)) "," m = (1, digitsToNat ds, ",")) ∧
    (boundExprP (ds ++ '$' :: '$' :: rest) =
        some ((.exact (digitsToNat ds), ","), rest) ∧
      parse_bound_expr (.exact (digitsToNat ds)) "," m =
        (digitsToNat ds, digitsToNat ds, ",")) := by
  obtain ⟨d0, ds2, rfl⟩ : ∃ d0 ds2, ds = d0 :: ds2 := by
    cases ds with
    | nil => exact absurd rfl hne
    | cons a b => exact ⟨a, b, rfl⟩
  have hd0 : d0.isDigit = true := hd d0 (List.mem_cons_self _ _)
  have hd0m : d0 ≠ '-' := by
    intro he; rw [he] at hd0; exact absurd hd0 (by decide)
  have hnone := boundSepNoDollar hr
  refine ⟨⟨?_, rfl⟩, ⟨?_, rfl⟩, ⟨?_, rfl⟩⟩
  · have hint : intTok ((d0 :: ds2) ++ '-' :: '$' :: '$' :: rest) =
        some (digitsToNat (d0 :: ds2), '-' :: '$' :: '$' :: rest) :=
      intTok_append _ hne hd (by intro c r h; cases h; decide)
    have hint2 : intTok ('$' :: '$' :: rest) = none :=
      intTok_fail_head (by intro c r h; cases h; decide)
    simp only [List.cons_append] at hint
    by_cases he : (runSplit isSeparatorChar rest).1 = [] <;>
      simp [boundExprP, boundRangeP, hint, hint2, eatStr, hd0m, he, hnone]
  · have hint : intTok ((d0 :: ds2) ++ '$' :: '$' :: rest) =
        some (digitsToNat (d0 :: ds2), '$' :: '$' :: rest) :=
      intTok_append _ hne hd (by intro c r h; cases h; decide)
    have hint0 : intTok ('-' :: ((d0 :: ds2) ++ '$' :: '$' :: rest)) = none :=
      intTok_fail_head (by intro c r h; cases h; decide)
    simp only [List.cons_append] at hint hint0
    by_cases he : (runSplit isSeparatorChar rest).1 = [] <;>
      simp [boundExprP, boundRangeP, hint, hint0, eatStr, hd0m, he, hnone]
  · have hint : intTok ((d0 :: ds2) ++ '$' :: '$' :: rest) =
        some (digitsToNat (d0 :: ds2), '$' :: '$' :: rest) :=
      intTok_append _ hne hd (by intro c r h; cases h; decide)
    simp only [List.cons_append] at hint
    by_cases he : (runSplit isSeparatorChar rest).1 = [] <;>
      simp [boundExprP, boundRangeP, hint, eatStr, hd0m, he, hnone]

/-- C9 witness: the bound clause "2-$$" before options "a|b}" captures a
lower bound of 2 with the default comma separator. -/
theorem c9_bound_ranges_witness :
    ((['2'] : List Char) ≠ [] ∧ (∀ c ∈ (['2'] : List Char), c.isDigit = true) ∧
      (∀ c ∈ ('a' :: '|' :: 'b' :: '}' :: ([] : List Char)), c ≠ '$')) ∧
    boundExprP (['2'] ++ '-' :: '$' :: '$' :: 'a' :: '|' :: 'b' :: '}' :: []) =
      some ((.lower (digitsToNat ['2']), ","), 'a' :: '|' :: 'b' :: '}' :: []) ∧
    parse_bound_expr (.lower (digitsToNat ['2'])) "," 3 = (digitsToNat ['2'], 3, ",") :=
  ⟨⟨by decide, by decide, by decide⟩,
    (c9_bound_ranges ['2'] ('a' :: '|' :: 'b' :: '}' :: []) 3 (by decide) (by decide)
      (by decide)).1⟩

/-! ## Claim C6 -/

/-- C6: parse matches the grammar against the entire input (parse_all).  When
the prompt production consumes the whole input the parsed command is returned;
when it consumes only a proper prefix, parse raises a syntax error carrying the
offending position — the length of the consumed prefix — and returns no
command (no partial result).  Scope: the input contains no "#" and no "/"
character, so none of the comment ignore-expressions (all of whose markers
need one of those characters) can fire anywhere; on an input whose remainder
opens a comment the real parser instead strips the comment and succeeds. -/
theorem c6_trailing_input_is_error (s : String) (c : Command) (rest : List Char)
    (halnum : pyIsAlnumL s.data = false)
    (_hnh : '#' ∉ s.data) (_hns : '/' ∉ s.data)
    (hrun : promptP (8 * s.data.length + 16) s.data = .ok c rest) :
    (rest = [] → parse s = .ok c) ∧
    (rest ≠ [] →
      parse s = .error (.syntaxError (s.data.length - rest.length)) ∧
      ∀ c2, parse s ≠ .ok c2) := by
  have hrun2 : promptP (8 * s.length + 16) s.data = POut.ok c rest := hrun
  constructor
  · intro h
    subst h
    simp [parse, parseL, halnum, hrun2]
  · intro h
    have hne : rest.isEmpty = false := by
      cases rest with
      | nil => exact absurd rfl h
      | cons a b => rfl
    constructor
    · simp [parse, parseL, halnum, hrun2, h]
    · intro c2
      simp [parse, parseL, halnum, hrun2, h]

set_option maxRecDepth 4000 in
/-- C6 witness: "ab{cd" (which contains neither "#" nor "/") parses a literal
prefix "ab" and then fails; parse reports a syntax error at position 2 and
returns no command. -/
theorem c6_trailing_input_is_error_witness :
    pyIsAlnumL "ab\x7bcd".data = false ∧
    promptP (8 * "ab\x7bcd".data.length + 16) "ab\x7bcd".data =
      .ok (.literal "ab") ('{' :: 'c' :: 'd' :: []) ∧
    parse "ab\x7bcd" = .error (.syntaxError 2) :=
  ⟨rfl, rfl,
    ((c6_trailing_input_is_error "ab\x7bcd" (.literal "ab") ('{' :: 'c' :: 'd' :: [])
      rfl (by decide) (by decide) rfl).2 (by simp)).1⟩

/-! ## Claim C5 -/

set_option maxRecDepth 2000 in
/-- C5 counterexample: the empty input contains no reserved punctuation, yet
parse returns an empty SequenceCommand, not a Literal whose text equals the
input. -/
theorem c5_counterexample :
    parse "" = .ok (.sequence []) ∧ Command.sequence [] ≠ Command.literal "" :=
  ⟨rfl, by simp⟩

/-- C5 (amended): for every nonempty input containing no reserved directive
punctuation — no "#", "{", "$" or "%" character, no "__" wildcard wrap, and
not opening with a "//" or "/*" comment marker even after the leading run of
pyparsing-skippable whitespace (" \n\t\r") — parse returns a Literal command
whose text equals the input character for character, with all whitespace
preserved exactly.  The whitespace-skipping guard is needed because a comment
ignore-expression tried at the input's start itself skips leading whitespace
before its marker, so the real parser turns " //x" into an empty sequence; a
marker strictly inside the literal run never sits at an element boundary and
is consumed as ordinary text. -/
theorem c5_pure_literal_roundtrip (s : String)
    (hne : s.data ≠ [])
    (ha : ∀ c ∈ s.data, c ≠ '#' ∧ c ≠ '{' ∧ c ≠ '$' ∧ c ≠ '%')
    (hu : hasPair '_' '_' s.data = false)
    (hsl : startsWith2 '/' '/' (s.data.dropWhile isWsChar) = false)
    (hsb : startsWith2 '/' '*' (s.data.dropWhile isWsChar) = false) :
    parse s = .ok (.literal s) := by
  have hmk : String.mk s.data = s := by
    cases s
    rfl
  by_cases hal : pyIsAlnumL s.data
  · simp [parse, parseL, hal, hmk]
  · have hb : pyIsAlnumL s.data = false := by simpa using hal
    have hlitEx : ∀ c ∈ s.data, litExcluded ⟨false, false⟩ c = false := by
      intro c hc
      obtain ⟨h1, h2, h3, h4⟩ := ha c hc
      simp [litExcluded, h1, h2, h3, h4]
    have hp : promptP (8 * s.data.length + 16) s.data =
        .ok (.literal (String.mk s.data)) [] := by
      have e : 8 * s.data.length + 16 = (8 * s.data.length + 13) + 3 := by omega
      rw [e]
      exact promptP_literal_all hne hlitEx hu
    have hp2 : promptP (8 * s.length + 16) s.data =
        .ok (.literal (String.mk s.data)) [] := hp
    simp [parse, parseL, hb, hp2, hmk]

set_option maxRecDepth 4000 in
/-- C5 witness: "ab cd/e" is a pure literal input (with significant inner
whitespace) and parses to exactly itself. -/
theorem c5_pure_literal_roundtrip_witness :
    ("ab cd/e".data ≠ [] ∧
      (∀ c ∈ "ab cd/e".data, c ≠ '#' ∧ c ≠ '{' ∧ c ≠ '$' ∧ c ≠ '%') ∧
      hasPair '_' '_' "ab cd/e".data = false ∧
      startsWith2 '/' '/' ("ab cd/e".data.dropWhile isWsChar) = false ∧
      startsWith2 '/' '*' ("ab cd/e".data.dropWhile isWsChar) = false) ∧
    parse "ab cd/e" = .ok (.literal "ab cd/e") :=
  ⟨⟨by decide, by decide, by decide, by decide, by decide⟩,
    c5_pure_literal_roundtrip "ab cd/e" (by decide) (by decide) (by decide)
      (by decide) (by decide)⟩

/-! ## Claim C8 -/

/-- One get_cached_parser call preserves the cache invariant: the build log has
no duplicate configurations and every logged configuration has a cache entry. -/
theorem getCachedParser_inv {st : CacheState} (cfg : ParserConfig)
    (hnd : st.built.Nodup)
    (hmem : ∀ c ∈ st.built, ∃ i, (c, i) ∈ st.cache) :
    (getCachedParser st cfg).2.built.Nodup ∧
    ∀ c ∈ (getCachedParser st cfg).2.built,
      ∃ i, (c, i) ∈ (getCachedParser st cfg).2.cache := by
  unfold getCachedParser
  cases hf : st.cache.find? (fun e => e.1 == cfg) with
  | some e => exact ⟨hnd, hmem⟩
  | none =>
    have hnotin : cfg ∉ st.built := by
      intro hin
      obtain ⟨i, hi⟩ := hmem cfg hin
      have := List.find?_eq_none.mp hf _ hi
      simp at this
    constructor
    · simp only [List.nodup_append, List.nodup_cons, List.not_mem_nil,
        not_false_eq_true, List.nodup_nil, and_true, true_and]
      refine ⟨hnd, ?_⟩
      intro a ha hb
      simp only [List.mem_singleton] at hb
      subst hb
      exact hnotin ha
    · intro c hc
      rcases List.mem_append.mp hc with hold | hnew
      · obtain ⟨i, hi⟩ := hmem c hold
        exact ⟨i, List.mem_cons_of_mem _ hi⟩
      · simp only [List.mem_singleton] at hnew
        subst hnew
        exact ⟨st.nextId, List.mem_cons_self _ _⟩

/-- Folding get_cached_parser over a trace preserves the cache invariant. -/
theorem runGets_inv (trace : List ParserConfig) :
    ∀ st : CacheState, st.built.Nodup →
      (∀ c ∈ st.built, ∃ i, (c, i) ∈ st.cache) →
      (trace.foldl (fun st cfg => (getCachedParser st cfg).2) st).built.Nodup := by
  induction trace with
  | nil => intro st hnd _; exact hnd
  | cons cfg rest ih =>
    intro st hnd hmem
    obtain ⟨hnd2, hmem2⟩ := getCachedParser_inv cfg hnd hmem
    exact ih _ hnd2 hmem2

/-- C8: the compiled-parser cache is an idempotent memoized build: looking up
the same configuration again immediately afterwards returns the same parser
object and leaves the cache unchanged, and over any sequence of lookups
create_parser runs at most once per distinct configuration. -/
theorem c8_parser_cache_idempotent :
    (∀ (st : CacheState) (cfg : ParserConfig),
      (getCachedParser (getCachedParser st cfg).2 cfg).1 =
        (getCachedParser st cfg).1 ∧
      (getCachedParser (getCachedParser st cfg).2 cfg).2 =
        (getCachedParser st cfg).2) ∧
    (∀ (trace : List ParserConfig) (cfg : ParserConfig),
      (runGets trace).built.count cfg ≤ 1) := by
  constructor
  · intro st cfg
    cases hf : st.cache.find? (fun e => e.1 == cfg) with
    | some e => simp [getCachedParser, hf]
    | none => simp [getCachedParser, hf]
  · intro trace cfg
    have hnd : (runGets trace).built.Nodup :=
      runGets_inv trace initialCacheState (by simp [initialCacheState])
        (by simp [initialCacheState])
    exact List.nodup_iff_count_le_one.mp hnd cfg

/-! ## Claim C10 -/

theorem hasPair_none_of_no_first {x y : Char} {l : List Char}
    (h : ∀ c ∈ l, c ≠ x) : hasPair x y l = false := by
  induction l with
  | nil => rfl
  | cons a r ih =>
    have ha : a ≠ x := h a (List.mem_cons_self _ _)
    simp only [hasPair, Bool.or_eq_false_iff]
    exact ⟨by simp [ha], ih (fun c hc => h c (List.mem_cons_of_mem a hc))⟩

theorem varNameTok_append {c : Char} {nr : List Char} (b : List Char)
    (h1 : isVarNameFirst c = true) (h2 : ∀ d ∈ nr, isVarNameRest d = true)
    (hb : ∀ d r, b = d :: r → isVarNameRest d = false) :
    varNameTok ((c :: nr) ++ b) = some (c :: nr, b) := by
  simp [varNameTok, h1, runSplit_append b h2 hb]

theorem varNameFirst_not_ws {c : Char} (h : isVarNameFirst c = true) :
    isWsChar c = false := by
  cases hw : isWsChar c
  · rfl
  · exfalso
    simp only [isWsChar, Bool.or_eq_true, decide_eq_true_eq] at hw
    rcases hw with ((hx | hx) | hx) | hx <;> subst hx <;> simp [isVarNameFirst] at h

theorem varNameFirst_not_pyspace {c : Char} (h : isVarNameFirst c = true) :
    isPySpace c = false := by
  cases hw : isPySpace c
  · rfl
  · exfalso
    simp only [isPySpace, Bool.or_eq_true, decide_eq_true_eq] at hw
    rcases hw with ((((hx | hx) | hx) | hx) | hx) | hx <;> subst hx <;>
      simp [isVarNameFirst] at h

theorem varNameRest_not_pyspace {c : Char} (h : isVarNameRest c = true) :
    isPySpace c = false := by
  cases hw : isPySpace c
  · rfl
  · exfalso
    simp only [isPySpace, Bool.or_eq_true, decide_eq_true_eq] at hw
    rcases hw with ((((hx | hx) | hx) | hx) | hx) | hx <;> subst hx <;>
      simp [isVarNameRest] at h

theorem alpha_or_space_lit_ok {c : Char} (h : c.isAlpha = true ∨ c = ' ') :
    litExcluded ⟨true, false⟩ c = false := by
  have hne : ∀ x : Char, x.isAlpha = false → c ≠ ' ' → False ∨ True := fun _ _ _ => Or.inr trivial
  rcases h with h | h
  · have h1 : c ≠ '#' := fun he => by rw [he] at h; exact absurd h (by decide)
    have h2 : c ≠ '{' := fun he => by rw [he] at h; exact absurd h (by decide)
    have h3 : c ≠ '$' := fun he => by rw [he] at h; exact absurd h (by decide)
    have h4 : c ≠ '%' := fun he => by rw [he] at h; exact absurd h (by decide)
    have h5 : c ≠ '|' := fun he => by rw [he] at h; exact absurd h (by decide)
    have h6 : c ≠ '}' := fun he => by rw [he] at h; exact absurd h (by decide)
    simp [litExcluded, h1, h2, h3, h4, h5, h6]
  · subst h
    decide

theorem alpha_or_space_ne {c : Char} (h : c.isAlpha = true ∨ c = ' ') (x : Char)
    (hx : x.isAlpha = false) (hxs : x ≠ ' ') : c ≠ x := by
  rcases h with h | h
  · intro he; rw [he] at h; exact absurd h (by simp [hx])
  · intro he
    apply hxs
    rw [← he]
    exact h

/-- The shared variable-access grammar on a plain name with no default
clause. -/
theorem varAccessCoreP_no_default {f : Nat} {c0 : Char} {nr : List Char}
    (rest : List Char)
    (hn1 : isVarNameFirst c0 = true) (hn2 : ∀ d ∈ nr, isVarNameRest d = true) :
    varAccessCoreP (f + 1) ('$' :: '{' :: ((c0 :: nr) ++ '}' :: rest)) =
      .ok (String.mk (c0 :: nr), none) rest := by
  have hname : varNameTok ((c0 :: nr) ++ '}' :: rest) = some (c0 :: nr, '}' :: rest) :=
    varNameTok_append _ hn1 hn2 (by intro d r h; cases h; decide)
  have hws : dropWs ((c0 :: nr) ++ '}' :: rest) = (c0 :: nr) ++ '}' :: rest := by
    apply dropWs_eq_self
    intro d r h
    rw [List.cons_append] at h
    cases h
    exact varNameFirst_not_ws hn1
  have hws2 : dropWs ('}' :: rest) = '}' :: rest := by
    apply dropWs_eq_self
    intro d r h
    cases h
    decide
  simp only [List.cons_append] at hname hws
  simp [varAccessCoreP, eatStr, hws, hname, hws2]

/-- The shared variable-access grammar on a plain name with a literal default
clause. -/
theorem varAccessCoreP_literal_default {f : Nat} {c0 : Char} {nr t : List Char}
    (rest : List Char)
    (hn1 : isVarNameFirst c0 = true) (hn2 : ∀ d ∈ nr, isVarNameRest d = true)
    (ht1 : t ≠ []) (ht2 : ∀ d ∈ t, d.isAlpha = true ∨ d = ' ')
    (ht3 : ∀ d r, t = d :: r → isWsChar d = false) :
    varAccessCoreP (f + 5) ('$' :: '{' :: ((c0 :: nr) ++ ':' :: (t ++ '}' :: rest))) =
      .ok (String.mk (c0 :: nr), some (.literal (String.mk t))) rest := by
  have hname : varNameTok ((c0 :: nr) ++ ':' :: (t ++ '}' :: rest)) =
      some (c0 :: nr, ':' :: (t ++ '}' :: rest)) :=
    varNameTok_append _ hn1 hn2 (by intro d r h; cases h; decide)
  have hws : dropWs ((c0 :: nr) ++ ':' :: (t ++ '}' :: rest)) =
      (c0 :: nr) ++ ':' :: (t ++ '}' :: rest) := by
    apply dropWs_eq_self
    intro d r h
    rw [List.cons_append] at h
    cases h
    exact varNameFirst_not_ws hn1
  have hws2 : dropWs (':' :: (t ++ '}' :: rest)) = ':' :: (t ++ '}' :: rest) := by
    apply dropWs_eq_self
    intro d r h
    cases h
    decide
  have hws3 : dropWs (t ++ '}' :: rest) = t ++ '}' :: rest := by
    apply dropWs_eq_self
    intro d r h
    cases t with
    | nil => exact absurd rfl ht1
    | cons a b =>
      rw [List.cons_append] at h
      injection h with h1 h2
      rw [← h1]
      exact ht3 a b rfl
  have hnp : ∀ d ∈ t ++ ('}' :: rest).take 1, d ≠ '_' := by
    intro d hd
    rcases List.mem_append.mp hd with hdt | hdr
    · exact alpha_or_space_ne (ht2 d hdt) '_' (by decide) (by decide)
    · simp only [List.take, List.mem_singleton] at hdr
      subst hdr
      decide
  have hnc : ∀ d ∈ t ++ ('}' :: rest).take 1, d ≠ ':' := by
    intro d hd
    rcases List.mem_append.mp hd with hdt | hdr
    · exact alpha_or_space_ne (ht2 d hdt) ':' (by decide) (by decide)
    · simp only [List.take, List.mem_singleton] at hdr
      subst hdr
      decide
  have hprompt : variantPromptP (f + 1 + 3) (t ++ '}' :: rest) =
      .ok (.literal (String.mk t)) ('}' :: rest) :=
    variantPromptP_literal ('}' :: rest) ht1
      (fun d hd => alpha_or_space_lit_ok (ht2 d hd))
      (hasPair_none_of_no_first hnp)
      (hasPair_none_of_no_first hnc)
      (litRun_stop_of_excluded (by decide))
      (fun f => variantChunkP_fail_cons (Or.inl rfl))
  have e4 : f + 1 + 3 = f + 4 := by omega
  rw [e4] at hprompt
  have hws4 : dropWs ('}' :: rest) = '}' :: rest := by
    apply dropWs_eq_self
    intro d r h
    cases h
    decide
  simp only [List.cons_append] at hname hws
  simp [varAccessCoreP, eatStr, hws, hname, hws2, hws3, hprompt, hws4]

/-- C10: a variable access inside a wildcard path with no default clause gets
a default equal to a Literal of the variable's own name; with a default
clause present, the default is flattened to a Literal of its
whitespace-stripped text.  (wildcard_variable_access is the variable-access
production used only inside wildcard paths, wired to
_parse_wildcard_variable_access_command.) -/
theorem c10_wildcard_variable_access (f : Nat) (c0 : Char) (nr t rest : List Char)
    (hn1 : isVarNameFirst c0 = true) (hn2 : ∀ d ∈ nr, isVarNameRest d = true)
    (ht1 : t ≠ []) (ht2 : ∀ d ∈ t, d.isAlpha = true ∨ d = ' ')
    (ht3 : ∀ d r, t = d :: r → isWsChar d = false) :
    wildcardVarAccessP (f + 6) ('$' :: '{' :: ((c0 :: nr) ++ '}' :: rest)) =
      .ok (.variableAccess (String.mk (c0 :: nr))
        (some (.literal (String.mk (c0 :: nr))))) rest ∧
    wildcardVarAccessP (f + 6) ('$' :: '{' :: ((c0 :: nr) ++ ':' :: (t ++ '}' :: rest))) =
      .ok (.variableAccess (String.mk (c0 :: nr))
        (some (.literal (pyStrip (String.mk t))))) rest := by
  have hstripName : pyStrip (String.mk (c0 :: nr)) = String.mk (c0 :: nr) := by
    unfold pyStrip
    congr 1
    apply pyStripL_eq_self
    intro d hd
    rcases List.mem_cons.mp hd with hd0 | hdr
    · subst hd0; exact varNameFirst_not_pyspace hn1
    · exact varNameRest_not_pyspace (hn2 d hdr)
  constructor
  · have hcore := varAccessCoreP_no_default (f := f + 4) rest hn1 hn2
    have e5 : f + 4 + 1 = f + 5 := by omega
    rw [e5] at hcore
    simp only [List.cons_append] at hcore
    simp [wildcardVarAccessP, hcore, parseWildcardVariableAccessAction, hstripName]
  · have hcore := varAccessCoreP_literal_default (f := f) rest hn1 hn2 ht1 ht2 ht3
    simp only [List.cons_append] at hcore
    simp [wildcardVarAccessP, hcore, parseWildcardVariableAccessAction, pyStrip]

/-- C10 witness: inside a wildcard path, "${var}" gets default Literal "var",
and "${var: foo }" gets default Literal "foo". -/
theorem c10_wildcard_variable_access_witness :
    (isVarNameFirst 'v' = true ∧ (∀ d ∈ ['a', 'r'], isVarNameRest d = true) ∧
      ('f' :: 'o' :: 'o' :: ' ' :: ([] : List Char)) ≠ [] ∧
      (∀ d ∈ ('f' :: 'o' :: 'o' :: ' ' :: ([] : List Char)), d.isAlpha = true ∨ d = ' ')) ∧
    wildcardVarAccessP 6 ('$' :: '{' :: (('v' :: ['a', 'r']) ++ '}' :: [])) =
      .ok (.variableAccess (String.mk ('v' :: ['a', 'r']))
        (some (.literal (String.mk ('v' :: ['a', 'r']))))) [] ∧
    wildcardVarAccessP 6
        ('$' :: '{' :: (('v' :: ['a', 'r']) ++ ':' ::
          (('f' :: 'o' :: 'o' :: ' ' :: []) ++ '}' :: []))) =
      .ok (.variableAccess (String.mk ('v' :: ['a', 'r']))
        (some (.literal (pyStrip (String.mk ('f' :: 'o' :: 'o' :: ' ' :: [])))))) [] :=
  ⟨⟨by decide, by decide, by decide, by decide⟩,
    (c10_wildcard_variable_access 0 'v' ['a', 'r'] ('f' :: 'o' :: 'o' :: ' ' :: []) []
      (by decide) (by decide) (by decide) (by decide)
      (by intro d r h; cases h; decide)).1,
    (c10_wildcard_variable_access 0 'v' ['a', 'r'] ('f' :: 'o' :: 'o' :: ' ' :: []) []
      (by decide) (by decide) (by decide) (by decide)
      (by intro d r h; cases h; decide)).2⟩

/-! ## Claim C7 -/

theorem dropWs_append_head {x : List Char} (b : List Char) (hne : x ≠ [])
    (hx : ∀ d r, x = d :: r → isWsChar d = false) : dropWs (x ++ b) = x ++ b := by
  apply dropWs_eq_self
  intro d r h
  cases x with
  | nil => exact absurd rfl hne
  | cons a b2 =>
    rw [List.cons_append] at h
    injection h with h1 h2
    rw [← h1]
    exact hx a b2 rfl

/-- A variant-prompt value made of letters and spaces, ending at the closing
brace: parses as one literal. -/
theorem variantPromptP_value {f : Nat} {v : List Char} (rest : List Char)
    (hv1 : v ≠ []) (hv2 : ∀ d ∈ v, d.isAlpha = true ∨ d = ' ') :
    variantPromptP (f + 3) (v ++ '}' :: rest) =
      .ok (.literal (String.mk v)) ('}' :: rest) := by
  have hnp : ∀ d ∈ v ++ ('}' :: rest).take 1, d ≠ '_' := by
    intro d hd
    rcases List.mem_append.mp hd with hdt | hdr
    · exact alpha_or_space_ne (hv2 d hdt) '_' (by decide) (by decide)
    · simp only [List.take, List.mem_singleton] at hdr
      subst hdr
      decide
  have hnc : ∀ d ∈ v ++ ('}' :: rest).take 1, d ≠ ':' := by
    intro d hd
    rcases List.mem_append.mp hd with hdt | hdr
    · exact alpha_or_space_ne (hv2 d hdt) ':' (by decide) (by decide)
    · simp only [List.take, List.mem_singleton] at hdr
      subst hdr
      decide
  exact variantPromptP_literal ('}' :: rest) hv1
    (fun d hd => alpha_or_space_lit_ok (hv2 d hd))
    (hasPair_none_of_no_first hnp)
    (hasPair_none_of_no_first hnc)
    (litRun_stop_of_excluded (by decide))
    (fun f => variantChunkP_fail_cons (Or.inl rfl))

/-- The variable-assignment production: "${name?=value}" yields
overwrite = false, immediate = false; "${name=!value}" yields
overwrite = true, immediate = true; "${name=value}" yields
overwrite = true, immediate = false. -/
theorem varAssignP_markers {f : Nat} {c0 : Char} {nr v : List Char}
    (rest : List Char)
    (hn1 : isVarNameFirst c0 = true) (hn2 : ∀ d ∈ nr, isVarNameRest d = true)
    (hv1 : v ≠ []) (hv2 : ∀ d ∈ v, d.isAlpha = true ∨ d = ' ')
    (hv3 : ∀ d r, v = d :: r → isWsChar d = false) :
    (varAssignP (f + 5) ('$' :: '{' :: ((c0 :: nr) ++ '?' :: '=' :: (v ++ '}' :: rest))) =
      .ok (.variableAssignment (String.mk (c0 :: nr)) (.literal (String.mk v))
        false false) rest) ∧
    (varAssignP (f + 5) ('$' :: '{' :: ((c0 :: nr) ++ '=' :: '!' :: (v ++ '}' :: rest))) =
      .ok (.variableAssignment (String.mk (c0 :: nr)) (.literal (String.mk v))
        true true) rest) ∧
    (varAssignP (f + 5) ('$' :: '{' :: ((c0 :: nr) ++ '=' :: (v ++ '}' :: rest))) =
      .ok (.variableAssignment (String.mk (c0 :: nr)) (.literal (String.mk v))
        true false) rest) := by
  have hws3 : dropWs (v ++ '}' :: rest) = v ++ '}' :: rest :=
    dropWs_append_head _ hv1 hv3
  have hprompt : variantPromptP (f + 1 + 3) (v ++ '}' :: rest) =
      .ok (.literal (String.mk v)) ('}' :: rest) :=
    variantPromptP_value rest hv1 hv2
  have e4 : f + 1 + 3 = f + 4 := by omega
  rw [e4] at hprompt
  have hws4 : dropWs ('}' :: rest) = '}' :: rest := by
    apply dropWs_eq_self
    intro d r h
    cases h
    decide
  have himm : eatStr ['!'] (v ++ '}' :: rest) = none := by
    cases v with
    | nil => exact absurd rfl hv1
    | cons a b =>
      rw [List.cons_append]
      refine eatStr_none_head (headIs_false_of_ne ?_)
      exact alpha_or_space_ne (hv2 a (List.mem_cons_self _ _)) '!' (by decide) (by decide)
  refine ⟨?_, ?_, ?_⟩
  · have hname : varNameTok ((c0 :: nr) ++ '?' :: '=' :: (v ++ '}' :: rest)) =
        some (c0 :: nr, '?' :: '=' :: (v ++ '}' :: rest)) :=
      varNameTok_append _ hn1 hn2 (by intro d r h; cases h; decide)
    have hws1 : dropWs ((c0 :: nr) ++ '?' :: '=' :: (v ++ '}' :: rest)) =
        (c0 :: nr) ++ '?' :: '=' :: (v ++ '}' :: rest) :=
      dropWs_append_head _ (by simp) (by intro d r h; cases h; exact varNameFirst_not_ws hn1)
    have hws2 : dropWs ('?' :: '=' :: (v ++ '}' :: rest)) =
        '?' :: '=' :: (v ++ '}' :: rest) := by
      apply dropWs_eq_self
      intro d r h
      cases h
      decide
    simp only [List.cons_append] at hname hws1
    simp [varAssignP, eatStr, hws1, hname, hws2, hws3, hprompt, hws4, himm]
  · have hname : varNameTok ((c0 :: nr) ++ '=' :: '!' :: (v ++ '}' :: rest)) =
        some (c0 :: nr, '=' :: '!' :: (v ++ '}' :: rest)) :=
      varNameTok_append _ hn1 hn2 (by intro d r h; cases h; decide)
    have hws1 : dropWs ((c0 :: nr) ++ '=' :: '!' :: (v ++ '}' :: rest)) =
        (c0 :: nr) ++ '=' :: '!' :: (v ++ '}' :: rest) :=
      dropWs_append_head _ (by simp) (by intro d r h; cases h; exact varNameFirst_not_ws hn1)
    have hws2 : dropWs ('=' :: '!' :: (v ++ '}' :: rest)) =
        '=' :: '!' :: (v ++ '}' :: rest) := by
      apply dropWs_eq_self
      intro d r h
      cases h
      decide
    simp only [List.cons_append] at hname hws1
    simp [varAssignP, eatStr, hws1, hname, hws2, hws3, hprompt, hws4]
  · have hname : varNameTok ((c0 :: nr) ++ '=' :: (v ++ '}' :: rest)) =
        some (c0 :: nr, '=' :: (v ++ '}' :: rest)) :=
      varNameTok_append _ hn1 hn2 (by intro d r h; cases h; decide)
    have hws1 : dropWs ((c0 :: nr) ++ '=' :: (v ++ '}' :: rest)) =
        (c0 :: nr) ++ '=' :: (v ++ '}' :: rest) :=
      dropWs_append_head _ (by simp) (by intro d r h; cases h; exact varNameFirst_not_ws hn1)
    have hws2 : dropWs ('=' :: (v ++ '}' :: rest)) = '=' :: (v ++ '}' :: rest) := by
      apply dropWs_eq_self
      intro d r h
      cases h
      decide
    simp only [List.cons_append] at hname hws1
    simp [varAssignP, eatStr, hws1, hname, hws2, hws3, hprompt, hws4, himm]

/-- A chunk beginning with "$" that the variable-assignment production accepts
parses as that assignment (the three higher-priority productions need an
opening brace, a "{" after "$" cannot start them). -/
theorem chunkP_of_varAssign {f : Nat} {l2 : List Char} {cmd : Command}
    {rest : List Char} (h : varAssignP f ('$' :: l2) = .ok cmd rest) :
    chunkP (f + 1) ('$' :: l2) = .ok cmd rest := by
  simp [chunkP, pOrElse,
    commentP_fail_head (l := '$' :: l2) (headIs_false_of_ne (by decide)),
    probabilityP_fail_head (l := '$' :: l2) (f := f) (headIs_false_of_ne (by decide)),
    conditionP_fail_head (l := '$' :: l2) (f := f) (headIs_false_of_ne (by decide)), h]

/-- A chunk that consumes the whole input makes the whole prompt production
return exactly its command. -/
theorem promptP_of_single_chunk {f : Nat} {l : List Char} {cmd : Command}
    (hch : chunkP (f + 1) l = .ok cmd []) :
    promptP (f + 3) l = .ok cmd [] := by
  have hloop : promptLoopP (f + 2) l = .ok [cmd] [] := by
    simp [promptLoopP, hch, chunkP_nil]
  simp [promptP, hloop, seqOrSingle]

/-- parse of an input fully consumed as one non-alphanumeric chunk. -/
theorem parseL_of_single_chunk {l : List Char} {cmd : Command}
    (hal : pyIsAlnumL l = false)
    (hch : chunkP (8 * l.length + 14) l = .ok cmd []) :
    parseL l = .ok cmd := by
  have hp : promptP (8 * l.length + 16) l = .ok cmd [] := by
    have e : 8 * l.length + 16 = (8 * l.length + 13) + 3 := by omega
    rw [e]
    exact promptP_of_single_chunk (f := 8 * l.length + 13)
      (by have e2 : 8 * l.length + 13 + 1 = 8 * l.length + 14 := by omega
          rw [e2]
          exact hch)
  simp [parseL, hal, hp]

theorem pyIsAlnumL_dollar (l : List Char) : pyIsAlnumL ('$' :: l) = false := by
  simp [pyIsAlnumL, List.all_cons]

/-- C7: a parsed variable assignment has overwrite set to false exactly when
the "?" marker is present (true otherwise), and immediate set to true exactly
when the "!" marker is present (false otherwise): "${name?=value}" gives
(overwrite, immediate) = (false, false), "${name=!value}" gives
(true, true), and "${name=value}" gives (true, false). -/
theorem c7_variable_assignment_flags (c0 : Char) (nr v : List Char)
    (hn1 : isVarNameFirst c0 = true) (hn2 : ∀ d ∈ nr, isVarNameRest d = true)
    (hv1 : v ≠ []) (hv2 : ∀ d ∈ v, d.isAlpha = true ∨ d = ' ')
    (hv3 : ∀ d r, v = d :: r → isWsChar d = false) :
    (parse (String.mk ('$' :: '{' :: ((c0 :: nr) ++ '?' :: '=' :: (v ++ ['}'])))) =
      .ok (.variableAssignment (String.mk (c0 :: nr)) (.literal (String.mk v))
        false false)) ∧
    (parse (String.mk ('$' :: '{' :: ((c0 :: nr) ++ '=' :: '!' :: (v ++ ['}'])))) =
      .ok (.variableAssignment (String.mk (c0 :: nr)) (.literal (String.mk v))
        true true)) ∧
    (parse (String.mk ('$' :: '{' :: ((c0 :: nr) ++ '=' :: (v ++ ['}'])))) =
      .ok (.variableAssignment (String.mk (c0 :: nr)) (.literal (String.mk v))
        true false)) := by
  obtain ⟨ha1, ha2, ha3⟩ := varAssignP_markers (f := 0) ([] : List Char)
    hn1 hn2 hv1 hv2 hv3
  refine ⟨?_, ?_, ?_⟩
  all_goals
    apply parseL_of_single_chunk (pyIsAlnumL_dollar _)
  · have e : 8 * ('$' :: '{' :: ((c0 :: nr) ++ '?' :: '=' :: (v ++ ['}']))).length + 14 =
        (8 * ('$' :: '{' :: ((c0 :: nr) ++ '?' :: '=' :: (v ++ ['}']))).length + 13) + 1 := by
      omega
    rw [e]
    apply chunkP_of_varAssign
    have ha := varAssignP_markers
      (f := 8 * ('$' :: '{' :: ((c0 :: nr) ++ '?' :: '=' :: (v ++ ['}']))).length + 8)
      ([] : List Char) hn1 hn2 hv1 hv2 hv3
    have e2 : 8 * ('$' :: '{' :: ((c0 :: nr) ++ '?' :: '=' :: (v ++ ['}']))).length + 8 + 5 =
        8 * ('$' :: '{' :: ((c0 :: nr) ++ '?' :: '=' :: (v ++ ['}']))).length + 13 := by
      omega
    rw [e2] at ha
    exact ha.1
  · have e : 8 * ('$' :: '{' :: ((c0 :: nr) ++ '=' :: '!' :: (v ++ ['}']))).length + 14 =
        (8 * ('$' :: '{' :: ((c0 :: nr) ++ '=' :: '!' :: (v ++ ['}']))).length + 13) + 1 := by
      omega
    rw [e]
    apply chunkP_of_varAssign
    have ha := varAssignP_markers
      (f := 8 * ('$' :: '{' :: ((c0 :: nr) ++ '=' :: '!' :: (v ++ ['}']))).length + 8)
      ([] : List Char) hn1 hn2 hv1 hv2 hv3
    have e2 : 8 * ('$' :: '{' :: ((c0 :: nr) ++ '=' :: '!' :: (v ++ ['}']))).length + 8 + 5 =
        8 * ('$' :: '{' :: ((c0 :: nr) ++ '=' :: '!' :: (v ++ ['}']))).length + 13 := by
      omega
    rw [e2] at ha
    exact ha.2.1
  · have e : 8 * ('$' :: '{' :: ((c0 :: nr) ++ '=' :: (v ++ ['}']))).length + 14 =
        (8 * ('$' :: '{' :: ((c0 :: nr) ++ '=' :: (v ++ ['}']))).length + 13) + 1 := by
      omega
    rw [e]
    apply chunkP_of_varAssign
    have ha := varAssignP_markers
      (f := 8 * ('$' :: '{' :: ((c0 :: nr) ++ '=' :: (v ++ ['}']))).length + 8)
      ([] : List Char) hn1 hn2 hv1 hv2 hv3
    have e2 : 8 * ('$' :: '{' :: ((c0 :: nr) ++ '=' :: (v ++ ['}']))).length + 8 + 5 =
        8 * ('$' :: '{' :: ((c0 :: nr) ++ '=' :: (v ++ ['}']))).length + 13 := by
      omega
    rw [e2] at ha
    exact ha.2.2

/-- C7 witness: "${x?=v}", "${x=!v}" and "${x=v}" parse with the claimed
overwrite/immediate flags. -/
theorem c7_variable_assignment_flags_witness :
    (isVarNameFirst 'x' = true ∧ (['v'] : List Char) ≠ []) ∧
    parse (String.mk ('$' :: '{' :: (('x' :: []) ++ '?' :: '=' :: (['v'] ++ ['}'])))) =
      .ok (.variableAssignment (String.mk ('x' :: [])) (.literal (String.mk ['v']))
        false false) ∧
    parse (String.mk ('$' :: '{' :: (('x' :: []) ++ '=' :: '!' :: (['v'] ++ ['}'])))) =
      .ok (.variableAssignment (String.mk ('x' :: [])) (.literal (String.mk ['v']))
        true true) :=
  ⟨⟨by decide, by decide⟩,
    (c7_variable_assignment_flags 'x' [] ['v'] (by decide) (by decide) (by decide)
      (by decide) (by intro d r h; cases h; decide)).1,
    (c7_variable_assignment_flags 'x' [] ['v'] (by decide) (by decide) (by decide)
      (by decide) (by intro d r h; cases h; decide)).2.1⟩

/-! ## Claim C1

Priority of the brace-opened productions: create_parser tries, in order,
inline_comments, probabilities, condition, then variants.  The probability
chance token is Word(nums + "."), so a float-acceptable text outside that
alphabet, such as "-1", can satisfy neither the probability production (the
chance token never matches a sign) nor the condition production (whose
pattern is rejected exactly when float() accepts it), and the whole block
fails to parse. -/

/-- Printable characters are never grammar whitespace. -/
theorem printable_not_ws {c : Char} (h : isPrintableChar c = true) :
    isWsChar c = false := by
  cases hw : isWsChar c
  · rfl
  · rw [ws_not_printable hw] at h
    exact absurd h (by simp)

/-- Chance-token characters (digits and ".") are never grammar whitespace. -/
theorem chance_not_ws {c : Char} (h : isChanceChar c = true) :
    isWsChar c = false := by
  cases hw : isWsChar c
  · rfl
  · exfalso
    simp only [isWsChar, Bool.or_eq_true, decide_eq_true_eq] at hw
    rcases hw with ((h1 | h1) | h1) | h1 <;> rw [h1] at h <;>
      exact absurd h (by decide)

/-- Characters on opposite sides of a Boolean character class differ. -/
theorem ne_of_true_of_false {p : Char → Bool} {c x : Char} (h : p c = true)
    (hx : p x = false) : c ≠ x := by
  intro he
  rw [he] at h
  rw [h] at hx
  exact absurd hx (by simp)

/-- A greedy run over X ++ b, when b opens with a non-matching character,
either consumes exactly X or stops at the first non-matching character
inside X. -/
theorem runSplit_append_cases {p : Char → Bool} (X b : List Char)
    (hb : ∀ c r, b = c :: r → p c = false) :
    runSplit p (X ++ b) = (X, b) ∨
    ∃ X1 c X2, X = X1 ++ c :: X2 ∧ p c = false ∧
      runSplit p (X ++ b) = (X1, c :: (X2 ++ b)) := by
  induction X with
  | nil =>
    exact Or.inl (by simpa using runSplit_stop hb)
  | cons a Y ih =>
    cases hpa : p a with
    | false =>
      refine Or.inr ⟨[], a, Y, rfl, hpa, ?_⟩
      rw [List.cons_append]
      simp [runSplit, hpa]
    | true =>
      rcases ih with h1 | ⟨X1, c, X2, hsp, hpc, hrun⟩
      · refine Or.inl ?_
        rw [List.cons_append]
        simp [runSplit, hpa, h1]
      · refine Or.inr ⟨a :: X1, c, X2, ?_, hpc, ?_⟩
        · rw [hsp, List.cons_append]
        · rw [List.cons_append]
          simp [runSplit, hpa, hrun]

/-- The condition parse action raises TypeError on every input: if_value is
not a field of the ConditionCommand dataclass. -/
theorem parseConditionAction_raises (c : String) (iv ev : Command) :
    parseConditionAction c iv ev = .error (.typeError
      "ConditionCommand.__init__() got an unexpected keyword argument if_value") :=
  rfl

/-- An input opening with a brace is not alphanumeric, so parse falls through
to the grammar. -/
theorem pyIsAlnumL_brace (l : List Char) : pyIsAlnumL ('{' :: l) = false := by
  simp [pyIsAlnumL, List.all_cons]

/-- The probability production on a block whose stripped text is a
float-accepted chance token: {X::w} parses as a ProbabilityCommand. -/
theorem probabilityP_num {f : Nat} {X w : List Char}
    (hX1 : X ≠ []) (hX2 : ∀ c ∈ X, isChanceChar c = true)
    (hXf : isPyFloat (String.mk X) = true)
    (hw1 : w ≠ []) (hw2 : ∀ d ∈ w, d.isAlpha = true ∨ d = ' ') :
    probabilityP (f + 4) ('{' :: (X ++ ':' :: ':' :: (w ++ ['}']))) =
      .ok (.probability (.literal (String.mk w)) (String.mk X)) [] := by
  have hws : dropWs (X ++ ':' :: ':' :: (w ++ ['}'])) =
      X ++ ':' :: ':' :: (w ++ ['}']) :=
    dropWs_append_head (':' :: ':' :: (w ++ ['}'])) hX1
      (fun d r h =>
        chance_not_ws (hX2 d (by rw [h]; exact List.mem_cons_self _ _)))
  have hrun : runSplit isChanceChar (X ++ ':' :: ':' :: (w ++ ['}'])) =
      (X, ':' :: ':' :: (w ++ ['}'])) :=
    runSplit_append (':' :: ':' :: (w ++ ['}'])) hX2
      (by intro c r h; injection h with h1 _; rw [← h1]; decide)
  have hne : X.isEmpty = false := by
    cases X with
    | nil => exact absurd rfl hX1
    | cons a b => rfl
  have hvp : variantPromptP (f + 3) (w ++ '}' :: []) =
      .ok (.literal (String.mk w)) ('}' :: []) :=
    variantPromptP_value [] hw1 hw2
  have hws2 : dropWs ('}' :: []) = '}' :: [] :=
    dropWs_eq_self (by intro d r h; injection h with h1 _; rw [← h1]; decide)
  have e : f + 4 = (f + 3) + 1 := by omega
  rw [e]
  simp [probabilityP, eatStr, hws, hrun, hne, hXf, hvp, hws2]

/-- The probability production fails on a block whose stripped text is
printable non-colon text that float() does not accept: the chance run either
covers the whole text (and the float gate rejects it) or stops inside it (and
the "::" that must follow mismatches). -/
theorem probabilityP_fail_nonnum {f : Nat} {X : List Char} (t : List Char)
    (hX1 : X ≠ [])
    (hX2 : ∀ c ∈ X, isPrintableChar c = true ∧ c ≠ ':')
    (hXf : isPyFloat (String.mk X) = false) :
    probabilityP (f + 1) ('{' :: (X ++ ':' :: ':' :: t)) = .fail := by
  have hws : dropWs (X ++ ':' :: ':' :: t) = X ++ ':' :: ':' :: t :=
    dropWs_append_head (':' :: ':' :: t) hX1
      (fun d r h =>
        printable_not_ws (hX2 d (by rw [h]; exact List.mem_cons_self _ _)).1)
  rcases runSplit_append_cases (p := isChanceChar) X (':' :: ':' :: t)
      (by intro c r h; injection h with h1 _; rw [← h1]; decide) with
    hrun | ⟨X1, c, X2, hsp, hpc, hrun⟩
  · simp [probabilityP, eatStr, hws, hrun, hXf]
  · have hc : c ≠ ':' :=
      (hX2 c (by rw [hsp]; exact List.mem_append_right _ (List.mem_cons_self _ _))).2
    simp [probabilityP, eatStr, hws, hrun, hc]

/-- The condition production on a block whose pattern is printable
non-numeric text: the pattern scanner takes exactly the pattern, the float
gate passes it through, the if-branch parses, and then the parse action
raises TypeError (the C4 construction bug). -/
theorem conditionP_raises {f : Nat} {X w : List Char}
    (hX1 : X ≠ [])
    (hX2 : ∀ c ∈ X, isPrintableChar c = true ∧ c ≠ ':' ∧ c ≠ '{' ∧ c ≠ '}')
    (hXf : isPyFloat (String.mk X) = false)
    (hw1 : w ≠ []) (hw2 : ∀ d ∈ w, d.isAlpha = true ∨ d = ' ')
    (hw3 : ∀ d r, w = d :: r → isWsChar d = false) :
    conditionP (f + 4) ('{' :: (X ++ ':' :: ':' :: (w ++ ['}']))) =
      .err (.typeError
        "ConditionCommand.__init__() got an unexpected keyword argument if_value") := by
  have hcc : condContent (X ++ ':' :: ':' :: (w ++ ['}'])) =
      (X, ':' :: ':' :: (w ++ ['}'])) :=
    condContent_append (':' :: ':' :: (w ++ ['}'])) hX1 hX2
      (by simp [condContentWs, headIs, isWsChar])
  have hdw : dropWs (':' :: ':' :: (w ++ ['}'])) = ':' :: ':' :: (w ++ ['}']) :=
    dropWs_eq_self (by intro d r h; injection h with h1 _; rw [← h1]; decide)
  have hdw2 : dropWs (w ++ '}' :: []) = w ++ '}' :: [] :=
    dropWs_append_head ('}' :: []) hw1 hw3
  have hvp : variantPromptP (f + 3) (w ++ '}' :: []) =
      .ok (.literal (String.mk w)) ('}' :: []) :=
    variantPromptP_value [] hw1 hw2
  have hdw3 : dropWs ('}' :: []) = '}' :: [] :=
    dropWs_eq_self (by intro d r h; injection h with h1 _; rw [← h1]; decide)
  have e : f + 4 = (f + 3) + 1 := by omega
  rw [e]
  simp [conditionP, eatStr, hcc, hXf, hdw, hdw2, hvp, hdw3,
    parseConditionAction_raises]

/-- A chunk on a numeric-pattern block: comment fails (no "*"), probability
wins. -/
theorem chunkP_prob {f : Nat} {X w : List Char}
    (hX1 : X ≠ []) (hX2 : ∀ c ∈ X, isChanceChar c = true)
    (hXf : isPyFloat (String.mk X) = true)
    (hw1 : w ≠ []) (hw2 : ∀ d ∈ w, d.isAlpha = true ∨ d = ' ') :
    chunkP (f + 5) ('{' :: (X ++ ':' :: ':' :: (w ++ ['}']))) =
      .ok (.probability (.literal (String.mk w)) (String.mk X)) [] := by
  have hcom : commentP ('{' :: (X ++ ':' :: ':' :: (w ++ ['}']))) = .fail := by
    apply commentP_fail_star
    · intro c r h
      cases X with
      | nil => exact absurd rfl hX1
      | cons a X2 =>
        rw [List.cons_append] at h
        injection h with h1 _
        rw [← h1]
        exact chance_not_ws (hX2 a (List.mem_cons_self _ _))
    · cases X with
      | nil => exact absurd rfl hX1
      | cons a X2 =>
        rw [List.cons_append]
        exact headIs_false_of_ne
          (ne_of_true_of_false (hX2 a (List.mem_cons_self _ _)) (by decide))
  have hprob := probabilityP_num (f := f) hX1 hX2 hXf hw1 hw2
  have e : f + 5 = (f + 4) + 1 := by omega
  rw [e]
  simp [chunkP, pOrElse, hcom, hprob]

/-- A chunk on a non-numeric-pattern block: comment fails (no "*"),
probability fails (chance token or "::" mismatch), condition wins and raises
TypeError. -/
theorem chunkP_cond {f : Nat} {X w : List Char}
    (hX1 : X ≠ [])
    (hX2 : ∀ c ∈ X, isPrintableChar c = true ∧ c ≠ ':' ∧ c ≠ '{' ∧ c ≠ '}')
    (hX3 : headIs '*' X = false)
    (hXf : isPyFloat (String.mk X) = false)
    (hw1 : w ≠ []) (hw2 : ∀ d ∈ w, d.isAlpha = true ∨ d = ' ')
    (hw3 : ∀ d r, w = d :: r → isWsChar d = false) :
    chunkP (f + 5) ('{' :: (X ++ ':' :: ':' :: (w ++ ['}']))) =
      .err (.typeError
        "ConditionCommand.__init__() got an unexpected keyword argument if_value") := by
  have hcom : commentP ('{' :: (X ++ ':' :: ':' :: (w ++ ['}']))) = .fail := by
    apply commentP_fail_star
    · intro c r h
      cases X with
      | nil => exact absurd rfl hX1
      | cons a X2 =>
        rw [List.cons_append] at h
        injection h with h1 _
        rw [← h1]
        exact printable_not_ws (hX2 a (List.mem_cons_self _ _)).1
    · cases X with
      | nil => exact absurd rfl hX1
      | cons a X2 =>
        rw [List.cons_append]
        rw [headIs_cons] at hX3 ⊢
        exact hX3
  have hprob : probabilityP (f + 4) ('{' :: (X ++ ':' :: ':' :: (w ++ ['}']))) =
      .fail := by
    have h := probabilityP_fail_nonnum (f := f + 3) (w ++ ['}']) hX1
      (fun c hc => ⟨(hX2 c hc).1, (hX2 c hc).2.1⟩) hXf
    have e : f + 3 + 1 = f + 4 := by omega
    rw [e] at h
    exact h
  have hcond := conditionP_raises (f := f) hX1 hX2 hXf hw1 hw2 hw3
  have e : f + 5 = (f + 4) + 1 := by omega
  rw [e]
  simp [chunkP, pOrElse, hcom, hprob, hcond]

/-- parse of an input whose single top-level chunk raises a Python error:
the error aborts the whole parse and surfaces as a PyError. -/
theorem parseL_of_chunk_err {l : List Char} {e : PyErr}
    (hal : pyIsAlnumL l = false)
    (hch : chunkP (8 * l.length + 14) l = .err e) :
    parseL l = .error (.pyError e) := by
  have hloop : promptLoopP (8 * l.length + 15) l = .err e := by
    have e2 : 8 * l.length + 15 = (8 * l.length + 14) + 1 := by omega
    rw [e2]
    simp [promptLoopP, hch]
  have hp : promptP (8 * l.length + 16) l = .err e := by
    have e3 : 8 * l.length + 16 = (8 * l.length + 15) + 1 := by omega
    rw [e3]
    simp [promptP, hloop]
  simp [parseL, hal, hp]

set_option maxRecDepth 8000 in
/-- C1 counterexample: the claim says a block "\x7bX::...\x7d" parses as a
Probability command exactly when the stripped text X is a real number.  For
X = "-1", Python float() accepts X (it is a real number), yet the block
"\x7b-1::x\x7d" parses as neither a Probability nor a Condition command: the
probability chance token Word(nums + ".") cannot match the sign, the
condition production rejects any float-accepted pattern, and the whole parse
fails with a syntax error at position 0. -/
theorem c1_counterexample :
    parse "\x7b-1::x\x7d" = .error (.syntaxError 0) ∧ isPyFloat "-1" = true :=
  ⟨rfl, rfl⟩

set_option maxRecDepth 8000 in
/-- C1 (corrected): the brace-opened productions are tried in the priority
order comment, probability, condition, variant, and the first whose content
constraint holds wins -- but the probability content constraint is "a chance
token over digits and '.' that float() accepts", not "any real number".
Concretely: a block opening "\x7b*" is taken by the comment production even
though it could read as "\x7bX::w\x7d"; a block "\x7bX::w\x7d" whose X is a
float-accepted chance token parses as a Probability command; and one whose
printable pattern X is not float-accepted reaches the condition production,
which then raises TypeError (the C4 construction bug) rather than building a
Condition command.  The condition arm additionally requires that X not open
with a comment marker ("#", "//" or "/*"): the pattern's start is an element
boundary where the real parser tries its comment ignore-expressions (not
modelled, see the header), so such a pattern is consumed as a comment and the
block fails with a syntax error instead; a marker strictly inside X is
scanned as ordinary pattern text by the adjacent Combine and stays in
scope. -/
theorem c1_priority_and_content (X w : List Char)
    (hw1 : w ≠ []) (hw2 : ∀ d ∈ w, d.isAlpha = true ∨ d = ' ')
    (hw3 : ∀ d r, w = d :: r → isWsChar d = false) :
    parse "\x7b*x::y*\x7d" = .ok (.comment "x::y") ∧
    ((∀ c ∈ X, isChanceChar c = true) → X ≠ [] →
      isPyFloat (String.mk X) = true →
      parse (String.mk ('{' :: (X ++ ':' :: ':' :: (w ++ ['}'])))) =
        .ok (.probability (.literal (String.mk w)) (String.mk X))) ∧
    ((∀ c ∈ X, isPrintableChar c = true ∧ c ≠ ':' ∧ c ≠ '{' ∧ c ≠ '}') →
      X ≠ [] → headIs '*' X = false → headIs '#' X = false →
      startsWith2 '/' '/' X = false → startsWith2 '/' '*' X = false →
      isPyFloat (String.mk X) = false →
      parse (String.mk ('{' :: (X ++ ':' :: ':' :: (w ++ ['}'])))) =
        .error (.pyError (.typeError
          "ConditionCommand.__init__() got an unexpected keyword argument if_value"))) := by
  refine ⟨rfl, ?_, ?_⟩
  · intro hX2 hX1 hXf
    show parseL ('{' :: (X ++ ':' :: ':' :: (w ++ ['}']))) = _
    apply parseL_of_single_chunk (pyIsAlnumL_brace _)
    have e : 8 * ('{' :: (X ++ ':' :: ':' :: (w ++ ['}']))).length + 14 =
        (8 * ('{' :: (X ++ ':' :: ':' :: (w ++ ['}']))).length + 9) + 5 := by
      omega
    rw [e]
    exact chunkP_prob hX1 hX2 hXf hw1 hw2
  · intro hX2 hX1 hX3 hm1 hm2 hm3 hXf
    show parseL ('{' :: (X ++ ':' :: ':' :: (w ++ ['}']))) = _
    apply parseL_of_chunk_err (pyIsAlnumL_brace _)
    have e : 8 * ('{' :: (X ++ ':' :: ':' :: (w ++ ['}']))).length + 14 =
        (8 * ('{' :: (X ++ ':' :: ':' :: (w ++ ['}']))).length + 9) + 5 := by
      omega
    rw [e]
    exact chunkP_cond hX1 hX2 hX3 hXf hw1 hw2 hw3

/-- C1 witness: the corrected theorem at X = "0.5" (probability arm) and at
X = "cat" (condition arm), with w = "x". -/
theorem c1_priority_and_content_witness :
    parse (String.mk ('{' :: (['0', '.', '5'] ++ ':' :: ':' :: (['x'] ++ ['}'])))) =
      .ok (.probability (.literal (String.mk ['x'])) (String.mk ['0', '.', '5'])) ∧
    parse (String.mk ('{' :: (['c', 'a', 't'] ++ ':' :: ':' :: (['x'] ++ ['}'])))) =
      .error (.pyError (.typeError
        "ConditionCommand.__init__() got an unexpected keyword argument if_value")) :=
  ⟨(c1_priority_and_content ['0', '.', '5'] ['x'] (by decide) (by decide)
      (by intro d r h; cases h; decide)).2.1 (by decide) (by decide) (by decide),
   (c1_priority_and_content ['c', 'a', 't'] ['x'] (by decide) (by decide)
      (by intro d r h; cases h; decide)).2.2 (by decide) (by decide) (by decide)
      (by decide) (by decide) (by decide) (by decide)⟩

end DynamicPrompts
